import Mathlib

/-!
TerminalMolecule: ray-sphere renderer of hydroxymethylene.

Shallow embedding of `src/main.cpp`.  The C++ `float` type is a type
parameter `α` with the arithmetic that each function uses; the library calls
`sqrtf`, `cos` and `sin` are passed to the functions that call them.  The
definitions are read in two ways:

* over `ℝ` with `Real.sqrt`, `Real.cos`, `Real.sin`: the exact-real-arithmetic
  reading of the program, in which the positive theorems are proved;
* over `Float32`, the finite binary32 numbers with every operation rounded to
  nearest, in which the program is evaluated at concrete inputs where rounding
  makes it leave the exact-real behaviour.

Division is total in both readings, so a division by zero yields `0` rather
than a NaN or an infinity.
-/

namespace TerminalMolecule

/-- The `struct vec3` of the source: three `float` components. -/
structure vec3 (α : Type) where
  x : α
  y : α
  z : α

namespace vec3

variable {α : Type}

/-- The `operator+` of `vec3`. -/
instance instAdd [Add α] : Add (vec3 α) where
  add a other := { x := a.x + other.x, y := a.y + other.y, z := a.z + other.z }

/-- The binary `operator-` of `vec3`. -/
instance instSub [Sub α] : Sub (vec3 α) where
  sub a other := { x := a.x - other.x, y := a.y - other.y, z := a.z - other.z }

/-- The unary `operator-` of `vec3`. -/
instance instNeg [Neg α] : Neg (vec3 α) where
  neg a := { x := -a.x, y := -a.y, z := -a.z }

/-- The `operator*` of `vec3`: vector times scalar. -/
instance instHMul [Mul α] : HMul (vec3 α) α (vec3 α) where
  hMul a scalar := { x := a.x * scalar, y := a.y * scalar, z := a.z * scalar }

/-- The `operator/` of `vec3`: vector divided by scalar. -/
instance instHDiv [Div α] : HDiv (vec3 α) α (vec3 α) where
  hDiv a scalar := { x := a.x / scalar, y := a.y / scalar, z := a.z / scalar }

/-- The member `dot` of `vec3`. -/
def dot [Add α] [Mul α] (a other : vec3 α) : α :=
  a.x * other.x + a.y * other.y + a.z * other.z

/-- The member `len` of `vec3`: `sqrtf(this->dot(*this))`. -/
def len [Add α] [Mul α] (sqrtf : α → α) (a : vec3 α) : α :=
  sqrtf (a.dot a)

/-- The member `normalize` of `vec3`, which overwrites the receiver; here it
returns the new value of the receiver. -/
def normalize [Add α] [Mul α] [Div α] (sqrtf : α → α) (a : vec3 α) : vec3 α :=
  let len := a.len sqrtf
  { x := a.x / len, y := a.y / len, z := a.z / len }

end vec3

/-- The function `intersectSphere` of the source; the literals `2.0f` and
`0.0f`, `-1.0f` and the `int` literal `4` are the numerals of `α`. -/
def intersectSphere {α : Type} [Add α] [Sub α] [Mul α] [Div α] [Neg α] [LT α]
    [DecidableRel (fun a b : α => a < b)] [OfNat α 0] [OfNat α 1] [OfNat α 2] [OfNat α 4]
    (sqrtf : α → α) (origin dir center : vec3 α) (radius : α) : α :=
  let oc := origin - center
  let a := dir.dot dir
  let b := 2 * oc.dot dir
  let c := oc.dot oc - radius * radius
  let discriminant := b * b - 4 * a * c
  if discriminant < 0 then
    -1
  else
    (-b - sqrtf discriminant) / (2 * a)

/-- The function `rotateCoordinates` of the source; `axis` is a C++ `int`, and
any value other than 0, 1, 2 leaves the point unchanged. -/
def rotateCoordinates {α : Type} [Add α] [Sub α] [Mul α] (cos sin : α → α)
    (initialCoordinates : vec3 α) (theta : α) (axis : Int) : vec3 α :=
  let newCoordinates := initialCoordinates
  if axis = 0 then
    let newCoordinates := { newCoordinates with
      y := initialCoordinates.y * cos theta - initialCoordinates.z * sin theta }
    { newCoordinates with
      z := initialCoordinates.y * sin theta + initialCoordinates.z * cos theta }
  else if axis = 1 then
    let newCoordinates := { newCoordinates with
      z := initialCoordinates.z * cos theta - initialCoordinates.x * sin theta }
    { newCoordinates with
      x := initialCoordinates.z * sin theta + initialCoordinates.x * cos theta }
  else if axis = 2 then
    let newCoordinates := { newCoordinates with
      x := initialCoordinates.x * cos theta - initialCoordinates.y * sin theta }
    { newCoordinates with
      y := initialCoordinates.x * sin theta + initialCoordinates.y * cos theta }
  else
    newCoordinates

/-! ## The constants and the pixel loop of `main` -/

section Main

variable {α : Type} [LinearOrderedField α]

/-- Image width: `const int width = 40`. -/
def width : Int := 40

/-- Image height: `const int height = 20`. -/
def height : Int := 20

/-- Number of frames: `int loopNumber = 628`. -/
def loopNumber : Int := 628

/-- Rotation axis: `int rotAxis = 1`. -/
def rotAxis : Int := 1

/-- Pixel shape: `const float pixelAspect = 2.0f`. -/
def pixelAspect : α := 2

/-- Rest position of the carbon sphere. -/
def center_carbon : vec3 α := ⟨-739089 / 100000, -122224 / 100000, 0⟩

/-- Radius of the carbon sphere. -/
def radius_carbon : α := 77 / 10

/-- Rest position of the oxygen sphere. -/
def center_oxygen : vec3 α := ⟨563790 / 100000, 83238 / 100000, 0⟩

/-- Radius of the oxygen sphere. -/
def radius_oxygen : α := 66 / 10

/-- Rest position of the first hydrogen sphere. -/
def center_h1 : vec3 α := ⟨-1136948 / 100000, 918588 / 100000, 0⟩

/-- Radius of the first hydrogen sphere. -/
def radius_h1 : α := 32 / 10

/-- Rest position of the second hydrogen sphere. -/
def center_h2 : vec3 α := ⟨989394 / 100000, -784332 / 100000, 0⟩

/-- Radius of the second hydrogen sphere. -/
def radius_h2 : α := 32 / 10

/-- The light vector: `{ -1, 1, 1 }` after `light.normalize()`. -/
def light (sqrtf : α → α) : vec3 α :=
  vec3.normalize sqrtf ⟨-1, 1, 1⟩

/-- Characters with different brightness: `const char colors[]`. -/
def colors : List Char := ['.', '-', ':', '=', '+', '*', '#', '@']

/-- The value of `sizeof(colors)`. -/
def numColors : Nat := colors.length

/-- Ray direction, the same for all pixels: `const vec3 dir{ 0, 0, 1 }`. -/
def dir : vec3 α := ⟨0, 0, 1⟩

/-- The C++ conversion `(int)` of a `float`: truncation toward zero. -/
def truncToInt [FloorRing α] (v : α) : Int :=
  if v < 0 then Int.ceil v else Int.floor v

/-- The read `colors[i]` for an `int` index; `none` stands for a read outside
the array, which the C++ standard leaves undefined. -/
def colorAt (i : Int) : Option Char :=
  if 0 ≤ i then colors[i.toNat]? else none

/-- The block of `main` that each of the four hit branches repeats for its own
sphere: the character printed for a ray from `origin` that hit the sphere of
center `center` at parameter `t`. -/
def shade [FloorRing α] (sqrtf : α → α) (light origin center : vec3 α) (t : α) : Option Char :=
  let intersection := origin + ((dir : vec3 α) * t)
  let normal := vec3.normalize sqrtf (intersection - center)
  let lum := normal.dot (-light)
  if lum < 0 then
    colorAt 0
  else
    colorAt (truncToInt ((numColors : α) * lum))

/-- The body of the pixel loop of `main` from the four calls of
`intersectSphere` on: the character printed for the ray that starts at
`origin`, given the light and the four current centers. -/
def pixel [FloorRing α] (sqrtf : α → α) (light carbon oxygen hyd1 hyd2 origin : vec3 α) :
    Option Char :=
  let t_carbon := intersectSphere sqrtf origin dir carbon radius_carbon
  let t_oxygen := intersectSphere sqrtf origin dir oxygen radius_oxygen
  let t_h1 := intersectSphere sqrtf origin dir hyd1 radius_h1
  let t_h2 := intersectSphere sqrtf origin dir hyd2 radius_h2
  if t_carbon > 0 then
    shade sqrtf light origin carbon t_carbon
  else if t_oxygen > 0 then
    shade sqrtf light origin oxygen t_oxygen
  else if t_h1 > 0 then
    shade sqrtf light origin hyd1 t_h1
  else if t_h2 > 0 then
    shade sqrtf light origin hyd2 t_h2
  else
    some ' '

/-- The angle of frame `radians`: `theta = radians / 100.0`. -/
def theta (radians : Int) : α :=
  (radians : α) / 100

/-- The carbon center of frame `radians`. -/
def carbon (cos sin : α → α) (radians : Int) : vec3 α :=
  rotateCoordinates cos sin center_carbon (theta radians) rotAxis

/-- The oxygen center of frame `radians`. -/
def oxygen (cos sin : α → α) (radians : Int) : vec3 α :=
  rotateCoordinates cos sin center_oxygen (theta radians) rotAxis

/-- The first hydrogen center of frame `radians`. -/
def hyd1 (cos sin : α → α) (radians : Int) : vec3 α :=
  rotateCoordinates cos sin center_h1 (theta radians) rotAxis

/-- The second hydrogen center of frame `radians`. -/
def hyd2 (cos sin : α → α) (radians : Int) : vec3 α :=
  rotateCoordinates cos sin center_h2 (theta radians) rotAxis

/-- The ray origin of the pixel in column `x` and row `y`. -/
def origin (x y : Int) : vec3 α :=
  let xWorld : α := ((x - width / 2 : Int) : α) + 1 / 2
  let yWorld : α := (((y - height / 2 : Int) : α) + 1 / 2) * pixelAspect
  ⟨xWorld, yWorld, -30⟩

/-- The character printed for the pixel in column `x` and row `y` of frame
`radians`. -/
def cell [FloorRing α] (sqrtf cos sin : α → α) (radians x y : Int) : Option Char :=
  pixel sqrtf (light sqrtf) (carbon cos sin radians) (oxygen cos sin radians)
    (hyd1 cos sin radians) (hyd2 cos sin radians) (origin x y)

/-- The four spheres of frame `radians`, each as its current center and its
radius, in the order in which the pixel loop tests them. -/
def spheres (cos sin : α → α) (radians : Int) : List (vec3 α × α) :=
  [(carbon cos sin radians, radius_carbon), (oxygen cos sin radians, radius_oxygen),
    (hyd1 cos sin radians, radius_h1), (hyd2 cos sin radians, radius_h2)]

/-- The index that a hit branch of `main` uses on `colors` for the luminance
`lum`: `0` in the branch `lum < 0`, otherwise `(int)(numColors * lum)`. -/
def glyphIndex [FloorRing α] (lum : α) : Int :=
  if lum < 0 then 0 else truncToInt ((numColors : α) * lum)

/-- The text printed by one pass of the loop over `y`: the characters of the
pixels `x = 0, ..., width - 1` of row `y`, then a newline; `none` when one of
the pixels reads outside `colors`. -/
def row [FloorRing α] (sqrtf cos sin : α → α) (radians y : Int) : Option (List Char) :=
  ((List.range width.toNat).mapM
    (fun (x : Nat) => cell sqrtf cos sin radians (Int.ofNat x) y)).map
    (fun glyphs => glyphs ++ ['\n'])

/-- The text printed by one pass of the loop over `radians`: the rows
`y = 0, ..., height - 1` one after the other. -/
def frame [FloorRing α] (sqrtf cos sin : α → α) (radians : Int) : Option (List Char) :=
  ((List.range height.toNat).mapM
    (fun (y : Nat) => row sqrtf cos sin radians (Int.ofNat y))).map
    List.flatten

/-- The values that the loop counter `radians` takes, in order:
`for (int radians = 0; radians < loopNumber; radians += 1)`. -/
def frameCounters : List Int :=
  (List.range loopNumber.toNat).map Int.ofNat

/-- The values of `theta` over the run, one per rendered frame, in order. -/
def frameThetas : List α :=
  frameCounters.map theta

end Main

/-! ## Binary32 arithmetic

The finite values of the C++ type `float` (IEEE 754 binary32), each given by
its exact rational value.  Every arithmetic operation is the exact operation
followed by rounding to the nearest binary32 number, ties to the even
significand, each operation rounded on its own.  Infinities, NaN and the sign
of zero are not represented: the evaluations below stay in the finite range
and divide by no zero. -/

section Binary32

/-- Numerator and denominator of `(n / d) / 2 ^ p`. -/
def scalePow2 (n d : Nat) (p : Int) : Nat × Nat :=
  if 0 ≤ p then (n, d * 2 ^ p.toNat) else (n * 2 ^ (-p).toNat, d)

/-- The rational `m * 2 ^ p`. -/
def mulPow2 (m : Int) (p : Int) : ℚ :=
  if 0 ≤ p then ((m * 2 ^ p.toNat : Int) : ℚ) else mkRat m (2 ^ (-p).toNat)

/-- Halving loop of `bits`; the first argument bounds the number of steps. -/
def bitsAux : Nat → Nat → Nat
  | 0, _ => 0
  | fuel + 1, n => if n = 0 then 0 else bitsAux fuel (n / 2) + 1

/-- Number of binary digits of `n`: `bits 0 = 0`, `bits 1 = 1`, `bits 8 = 4`. -/
def bits (n : Nat) : Nat :=
  bitsAux n n

/-- The binary exponent `e` of the positive rational `n / d`:
`2 ^ e ≤ n / d < 2 ^ (e + 1)`. -/
def ilog2 (n d : Nat) : Int :=
  let e0 : Int := (bits n : Int) - (bits d : Int)
  let s := scalePow2 n d e0
  if s.2 ≤ s.1 then e0 else e0 - 1

/-- The multiple of `2 ^ p` nearest to `q`, ties to the even multiple. -/
def roundAt (q : ℚ) (p : Int) : ℚ :=
  let s := scalePow2 q.num.natAbs q.den p
  let m := s.1 / s.2
  let r := s.1 % s.2
  let m1 := if s.2 < 2 * r ∨ (2 * r = s.2 ∧ m % 2 = 1) then m + 1 else m
  mulPow2 (if q.num < 0 then -(m1 : Int) else (m1 : Int)) p

/-- The binary32 number nearest to `q`: 24 significant binary digits, and the
unit `2 ^ (-149)` in the subnormal range. -/
def round32 (q : ℚ) : ℚ :=
  if q = 0 then 0 else roundAt q (max (ilog2 q.num.natAbs q.den - 23) (-149))

/-- Digit-by-digit loop of `isqrt`, from the binary digit `k - 1` down to 0. -/
def isqrtAux (n : Nat) : Nat → Nat → Nat
  | 0, r => r
  | k + 1, r =>
    if (r + 2 ^ k) * (r + 2 ^ k) ≤ n then isqrtAux n k (r + 2 ^ k) else isqrtAux n k r

/-- The integer square root: the largest `r` with `r * r ≤ n`. -/
def isqrt (n : Nat) : Nat :=
  isqrtAux n (bits n / 2 + 1) 0

/-- The binary32 number nearest to the square root of the positive rational
`q`: with `2 ^ p` the unit of the result, `m` is the integer part of
`√q / 2 ^ p`, and `m + 1` is taken when `√q / 2 ^ p` is above `m + 1/2`. -/
def sqrt32 (q : ℚ) : ℚ :=
  if q.num ≤ 0 then 0 else
    let n := q.num.natAbs
    let d := q.den
    let p : Int := ilog2 n d / 2 - 23
    let s := scalePow2 n d (2 * p)
    let m := isqrt (s.1 * s.2) / s.2
    let m1 := if (2 * m + 1) * (2 * m + 1) * s.2 < 4 * s.1
        ∨ ((2 * m + 1) * (2 * m + 1) * s.2 = 4 * s.1 ∧ m % 2 = 1) then m + 1 else m
    mulPow2 (m1 : Int) p

/-- A finite value of the C++ type `float`, by its exact rational value. -/
structure Float32 where
  toRat : ℚ
deriving DecidableEq

namespace Float32

/-- The `float` addition. -/
instance : Add Float32 :=
  ⟨fun a b => ⟨round32 (a.toRat + b.toRat)⟩⟩

/-- The `float` subtraction. -/
instance : Sub Float32 :=
  ⟨fun a b => ⟨round32 (a.toRat - b.toRat)⟩⟩

/-- The `float` multiplication. -/
instance : Mul Float32 :=
  ⟨fun a b => ⟨round32 (a.toRat * b.toRat)⟩⟩

/-- The `float` division. -/
instance : Div Float32 :=
  ⟨fun a b => ⟨round32 (a.toRat / b.toRat)⟩⟩

/-- The `float` negation, which is exact. -/
instance : Neg Float32 :=
  ⟨fun a => ⟨-a.toRat⟩⟩

/-- The `float` comparison `<`. -/
instance : LT Float32 :=
  ⟨fun a b => a.toRat < b.toRat⟩

/-- The comparison `<` is decided on the rational values. -/
instance (a b : Float32) : Decidable (a < b) :=
  inferInstanceAs (Decidable (a.toRat < b.toRat))

/-- A decimal integer literal converted to `float`. -/
instance (n : Nat) : OfNat Float32 n :=
  ⟨⟨round32 n⟩⟩

/-- The library function `sqrtf`, whose result is rounded to nearest. -/
def sqrt (a : Float32) : Float32 :=
  ⟨sqrt32 a.toRat⟩

end Float32

end Binary32

/-- The ray point of parameter `s` lies on the sphere: `|O + sD - C|² = r²`. -/
def OnSphere (O D C : vec3 ℝ) (r s : ℝ) : Prop :=
  vec3.len Real.sqrt (O + D * s - C) ^ 2 = r ^ 2

/-- The value `t` is the smallest non-negative real root of the quadratic
`|O + tD - C|² = r²`. -/
def IsSmallestNonnegRoot (O D C : vec3 ℝ) (r t : ℝ) : Prop :=
  0 ≤ t ∧ OnSphere O D C r t ∧ ∀ s : ℝ, 0 ≤ s → OnSphere O D C r s → t ≤ s

/-! ## Component lemmas for the vector operators -/

section Components

variable {α : Type}

@[simp] theorem vec3.add_x [Add α] (a b : vec3 α) : (a + b).x = a.x + b.x := rfl
@[simp] theorem vec3.add_y [Add α] (a b : vec3 α) : (a + b).y = a.y + b.y := rfl
@[simp] theorem vec3.add_z [Add α] (a b : vec3 α) : (a + b).z = a.z + b.z := rfl
@[simp] theorem vec3.sub_x [Sub α] (a b : vec3 α) : (a - b).x = a.x - b.x := rfl
@[simp] theorem vec3.sub_y [Sub α] (a b : vec3 α) : (a - b).y = a.y - b.y := rfl
@[simp] theorem vec3.sub_z [Sub α] (a b : vec3 α) : (a - b).z = a.z - b.z := rfl
@[simp] theorem vec3.neg_x [Neg α] (a : vec3 α) : (-a).x = -a.x := rfl
@[simp] theorem vec3.neg_y [Neg α] (a : vec3 α) : (-a).y = -a.y := rfl
@[simp] theorem vec3.neg_z [Neg α] (a : vec3 α) : (-a).z = -a.z := rfl
@[simp] theorem vec3.mul_x [Mul α] (a : vec3 α) (k : α) : (a * k).x = a.x * k := rfl
@[simp] theorem vec3.mul_y [Mul α] (a : vec3 α) (k : α) : (a * k).y = a.y * k := rfl
@[simp] theorem vec3.mul_z [Mul α] (a : vec3 α) (k : α) : (a * k).z = a.z * k := rfl
@[simp] theorem vec3.div_x [Div α] (a : vec3 α) (k : α) : (a / k).x = a.x / k := rfl
@[simp] theorem vec3.div_y [Div α] (a : vec3 α) (k : α) : (a / k).y = a.y / k := rfl
@[simp] theorem vec3.div_z [Div α] (a : vec3 α) (k : α) : (a / k).z = a.z / k := rfl

theorem vec3.eq_iff (a b : vec3 α) : a = b ↔ a.x = b.x ∧ a.y = b.y ∧ a.z = b.z := by
  cases a; cases b; simp

end Components

/-! ## Auxiliary facts on the quadratic of `intersectSphere` -/

section Quadratic

/-- The squared distance from the center to the ray point of parameter `s`,
minus the squared radius, is the quadratic whose coefficients
`intersectSphere` computes. -/
theorem ray_dist_sq (O D C : vec3 ℝ) (r s : ℝ) :
    (O + D * s - C).dot (O + D * s - C) - r * r
      = D.dot D * s * s + 2 * (O - C).dot D * s + ((O - C).dot (O - C) - r * r) := by
  simp only [vec3.dot, vec3.add_x, vec3.add_y, vec3.add_z, vec3.sub_x, vec3.sub_y, vec3.sub_z,
    vec3.mul_x, vec3.mul_y, vec3.mul_z]
  ring

/-- A non-zero direction has a positive squared length. -/
theorem dot_self_pos (D : vec3 ℝ) (hD : D ≠ ⟨0, 0, 0⟩) : 0 < D.dot D := by
  have h : ¬ (D.x = 0 ∧ D.y = 0 ∧ D.z = 0) := by
    intro h
    exact hD ((vec3.eq_iff _ _).2 h)
  have hx := mul_self_nonneg D.x
  have hy := mul_self_nonneg D.y
  have hz := mul_self_nonneg D.z
  have hne : D.x * D.x + D.y * D.y + D.z * D.z ≠ 0 := by
    intro h0
    apply h
    refine ⟨?_, ?_, ?_⟩ <;> nlinarith
  simp only [vec3.dot]
  exact lt_of_le_of_ne (by linarith) (Ne.symm hne)

/-- The near root is a root. -/
theorem near_root_is_root (a b c : ℝ) (ha : 0 < a) (hd : 0 ≤ b * b - 4 * a * c) :
    a * ((-b - Real.sqrt (b * b - 4 * a * c)) / (2 * a))
        * ((-b - Real.sqrt (b * b - 4 * a * c)) / (2 * a))
      + b * ((-b - Real.sqrt (b * b - 4 * a * c)) / (2 * a)) + c = 0 := by
  have hw := Real.mul_self_sqrt hd
  generalize Real.sqrt (b * b - 4 * a * c) = w at hw
  field_simp
  nlinarith

/-- Below the near root the quadratic is positive. -/
theorem pos_below_near_root (a b c s : ℝ) (ha : 0 < a) (hd : 0 ≤ b * b - 4 * a * c)
    (hs : s < (-b - Real.sqrt (b * b - 4 * a * c)) / (2 * a)) :
    0 < a * s * s + b * s + c := by
  have hw := Real.mul_self_sqrt hd
  have hw0 := Real.sqrt_nonneg (b * b - 4 * a * c)
  generalize Real.sqrt (b * b - 4 * a * c) = w at hw hw0 hs
  rw [lt_div_iff₀ (by linarith)] at hs
  have h1 : 0 < -b - w - s * (2 * a) := by linarith
  have h2 : 0 < -b + w - s * (2 * a) := by linarith
  have h3 := mul_pos h1 h2
  nlinarith

/-- A negative discriminant leaves the quadratic positive everywhere. -/
theorem pos_of_disc_neg (a b c s : ℝ) (ha : 0 < a) (hd : b * b - 4 * a * c < 0) :
    0 < a * s * s + b * s + c := by
  nlinarith [mul_self_nonneg (2 * a * s + b)]

/-- The square of `len` is the dot product of the vector with itself. -/
theorem len_sq (v : vec3 ℝ) : vec3.len Real.sqrt v ^ 2 = v.dot v := by
  have h : 0 ≤ v.dot v := by
    simp only [vec3.dot]
    nlinarith [mul_self_nonneg v.x, mul_self_nonneg v.y, mul_self_nonneg v.z]
  simp only [vec3.len]
  exact Real.sq_sqrt h

/-- A ray point is on the sphere exactly when the quadratic vanishes there. -/
theorem onSphere_iff (O D C : vec3 ℝ) (r s : ℝ) :
    OnSphere O D C r s ↔
      D.dot D * s * s + 2 * (O - C).dot D * s + ((O - C).dot (O - C) - r * r) = 0 := by
  rw [OnSphere, len_sq, ← ray_dist_sq]
  constructor <;> intro h <;> nlinarith

/-- Unfolding of `intersectSphere` when the discriminant is negative. -/
theorem intersectSphere_of_neg (O D C : vec3 ℝ) (r : ℝ)
    (h : 2 * (O - C).dot D * (2 * (O - C).dot D)
      - 4 * D.dot D * ((O - C).dot (O - C) - r * r) < 0) :
    intersectSphere Real.sqrt O D C r = -1 := by
  simp only [intersectSphere]
  rw [if_pos h]

/-- Unfolding of `intersectSphere` when the discriminant is not negative. -/
theorem intersectSphere_of_nonneg (O D C : vec3 ℝ) (r : ℝ)
    (h : 0 ≤ 2 * (O - C).dot D * (2 * (O - C).dot D)
      - 4 * D.dot D * ((O - C).dot (O - C) - r * r)) :
    intersectSphere Real.sqrt O D C r
      = (-(2 * (O - C).dot D) - Real.sqrt (2 * (O - C).dot D * (2 * (O - C).dot D)
          - 4 * D.dot D * ((O - C).dot (O - C) - r * r))) / (2 * D.dot D) := by
  simp only [intersectSphere]
  rw [if_neg (not_lt.2 h)]

/-- A positive result of `intersectSphere` comes from a non-negative discriminant. -/
theorem disc_nonneg_of_pos (O D C : vec3 ℝ) (r : ℝ)
    (ht : 0 < intersectSphere Real.sqrt O D C r) :
    0 ≤ 2 * (O - C).dot D * (2 * (O - C).dot D)
      - 4 * D.dot D * ((O - C).dot (O - C) - r * r) := by
  by_contra h
  rw [intersectSphere_of_neg O D C r (not_le.1 h)] at ht
  linarith

/-- With a non-negative discriminant the result of `intersectSphere` is on the sphere. -/
theorem intersectSphere_onSphere (O D C : vec3 ℝ) (r : ℝ) (hD : D ≠ ⟨0, 0, 0⟩)
    (h : 0 ≤ 2 * (O - C).dot D * (2 * (O - C).dot D)
      - 4 * D.dot D * ((O - C).dot (O - C) - r * r)) :
    OnSphere O D C r (intersectSphere Real.sqrt O D C r) := by
  rw [onSphere_iff, intersectSphere_of_nonneg O D C r h]
  exact near_root_is_root _ _ _ (dot_self_pos D hD) h

/-- No ray point of parameter below the result of `intersectSphere` is on or
inside the sphere, when the discriminant is non-negative. -/
theorem outside_below_intersectSphere (O D C : vec3 ℝ) (r s : ℝ) (hD : D ≠ ⟨0, 0, 0⟩)
    (h : 0 ≤ 2 * (O - C).dot D * (2 * (O - C).dot D)
      - 4 * D.dot D * ((O - C).dot (O - C) - r * r))
    (hs : s < intersectSphere Real.sqrt O D C r) :
    r * r < (O + D * s - C).dot (O + D * s - C) := by
  rw [intersectSphere_of_nonneg O D C r h] at hs
  have := pos_below_near_root _ _ _ s (dot_self_pos D hD) h hs
  rw [← ray_dist_sq] at this
  linarith

/-- A vector is no longer than `r ≥ 0` exactly when its squared length is at most `r²`. -/
theorem len_le_iff (v : vec3 ℝ) (r : ℝ) (hr : 0 ≤ r) :
    vec3.len Real.sqrt v ≤ r ↔ v.dot v ≤ r * r := by
  simp only [vec3.len]
  rw [Real.sqrt_le_left hr, sq]

end Quadratic

/-! ## Ray-sphere intersection -/

section Intersection

/-- A ray from `(0,0,-2)` down the z axis meets the unit sphere at `t = 1`. -/
theorem intersectSphere_unit_front :
    intersectSphere Real.sqrt ⟨0, 0, -2⟩ ⟨0, 0, 1⟩ ⟨0, 0, 0⟩ 1 = 1 := by
  have h4 : Real.sqrt 4 = 2 := by
    rw [show (4 : ℝ) = 2 ^ 2 by norm_num]
    exact Real.sqrt_sq (by norm_num)
  simp only [intersectSphere, vec3.dot, vec3.sub_x, vec3.sub_y, vec3.sub_z]
  norm_num
  rw [h4]
  norm_num

/-- A ray starting at the center of the unit sphere gets the negative near root. -/
theorem intersectSphere_unit_inside :
    intersectSphere Real.sqrt ⟨0, 0, 0⟩ ⟨0, 0, 1⟩ ⟨0, 0, 0⟩ 1 = -1 := by
  have h4 : Real.sqrt 4 = 2 := by
    rw [show (4 : ℝ) = 2 ^ 2 by norm_num]
    exact Real.sqrt_sq (by norm_num)
  simp only [intersectSphere, vec3.dot, vec3.sub_x, vec3.sub_y, vec3.sub_z]
  norm_num
  rw [h4]
  norm_num

/-- The direction `(0,0,1)` of the camera rays is not the zero vector. -/
theorem dir_ne_zero : (⟨0, 0, 1⟩ : vec3 ℝ) ≠ ⟨0, 0, 0⟩ := by
  intro h
  have := congrArg vec3.z h
  norm_num at this

/-- C1: for a non-zero direction and a positive radius, a positive result `t` of
`intersectSphere` is the parameter of a point on the sphere, and no parameter
`s` with `0 ≤ s < t` gives a point on or inside the sphere. -/
theorem intersectSphere_positive_is_nearest (O D C : vec3 ℝ) (r : ℝ)
    (hD : D ≠ ⟨0, 0, 0⟩) (hr : 0 < r) (ht : 0 < intersectSphere Real.sqrt O D C r) :
    vec3.len Real.sqrt (O + D * intersectSphere Real.sqrt O D C r - C) ^ 2 = r ^ 2 ∧
    ∀ s : ℝ, 0 ≤ s → s < intersectSphere Real.sqrt O D C r →
      ¬ vec3.len Real.sqrt (O + D * s - C) ≤ r := by
  have hd := disc_nonneg_of_pos O D C r ht
  refine ⟨intersectSphere_onSphere O D C r hD hd, ?_⟩
  intro s _ hs hle
  rw [len_le_iff _ _ hr.le] at hle
  have := outside_below_intersectSphere O D C r s hD hd hs
  linarith

/-- C1 at the ray from `(0,0,-2)` towards the unit sphere at the origin. -/
theorem intersectSphere_positive_is_nearest_witness :
    vec3.len Real.sqrt ((⟨0, 0, -2⟩ : vec3 ℝ)
        + (⟨0, 0, 1⟩ : vec3 ℝ) * intersectSphere Real.sqrt ⟨0, 0, -2⟩ ⟨0, 0, 1⟩ ⟨0, 0, 0⟩ 1
        - ⟨0, 0, 0⟩) ^ 2 = (1 : ℝ) ^ 2 ∧
    ∀ s : ℝ, 0 ≤ s → s < intersectSphere Real.sqrt ⟨0, 0, -2⟩ ⟨0, 0, 1⟩ ⟨0, 0, 0⟩ 1 →
      ¬ vec3.len Real.sqrt ((⟨0, 0, -2⟩ : vec3 ℝ) + (⟨0, 0, 1⟩ : vec3 ℝ) * s - ⟨0, 0, 0⟩) ≤ 1 :=
  intersectSphere_positive_is_nearest ⟨0, 0, -2⟩ ⟨0, 0, 1⟩ ⟨0, 0, 0⟩ 1 dir_ne_zero
    (by norm_num) (by rw [intersectSphere_unit_front]; norm_num)

/-- C2, amended, in exact real arithmetic:
for a non-zero direction, with `a = D·D`, `b = 2 (O-C)·D`,
`c = (O-C)·(O-C) - r²` and `disc = b² - 4ac`: `intersectSphere` returns `-1`
when `disc < 0`; `disc < 0` holds exactly when no point of the line `O + sD`
is on the sphere; and otherwise it returns `(-b - √disc) / (2a)`. -/
theorem intersectSphere_sentinel_or_near_root (O D C : vec3 ℝ) (r : ℝ)
    (hD : D ≠ ⟨0, 0, 0⟩) :
    ((2 * (O - C).dot D) ^ 2 - 4 * D.dot D * ((O - C).dot (O - C) - r ^ 2) < 0 →
      intersectSphere Real.sqrt O D C r = -1) ∧
    ((2 * (O - C).dot D) ^ 2 - 4 * D.dot D * ((O - C).dot (O - C) - r ^ 2) < 0 ↔
      ∀ s : ℝ, vec3.len Real.sqrt (O + D * s - C) ^ 2 ≠ r ^ 2) ∧
    (¬ (2 * (O - C).dot D) ^ 2 - 4 * D.dot D * ((O - C).dot (O - C) - r ^ 2) < 0 →
      intersectSphere Real.sqrt O D C r
        = (-(2 * (O - C).dot D)
            - Real.sqrt ((2 * (O - C).dot D) ^ 2
                - 4 * D.dot D * ((O - C).dot (O - C) - r ^ 2))) / (2 * D.dot D)) := by
  have e : (2 * (O - C).dot D) ^ 2 - 4 * D.dot D * ((O - C).dot (O - C) - r ^ 2)
      = 2 * (O - C).dot D * (2 * (O - C).dot D)
        - 4 * D.dot D * ((O - C).dot (O - C) - r * r) := by ring
  rw [e]
  refine ⟨intersectSphere_of_neg O D C r, ⟨?_, ?_⟩, ?_⟩
  · intro hd s hs
    have hs2 : OnSphere O D C r s := hs
    rw [onSphere_iff] at hs2
    have := pos_of_disc_neg _ _ _ s (dot_self_pos D hD) hd
    linarith
  · intro hno
    by_contra hd
    exact hno _ (intersectSphere_onSphere O D C r hD (not_lt.1 hd))
  · intro hd
    exact intersectSphere_of_nonneg O D C r (not_lt.1 hd)

/-- C2 at the ray from `(0,0,-2)` towards the unit sphere at the origin. -/
theorem intersectSphere_sentinel_or_near_root_witness :
    (∀ s : ℝ, vec3.len Real.sqrt
        ((⟨0, 0, -2⟩ : vec3 ℝ) + (⟨0, 0, 1⟩ : vec3 ℝ) * s - ⟨5, 0, 0⟩) ^ 2 ≠ (1 : ℝ) ^ 2) ∧
    intersectSphere Real.sqrt ⟨0, 0, -2⟩ ⟨0, 0, 1⟩ ⟨5, 0, 0⟩ 1 = -1 := by
  have h := intersectSphere_sentinel_or_near_root ⟨0, 0, -2⟩ ⟨0, 0, 1⟩ ⟨5, 0, 0⟩ 1 dir_ne_zero
  have hd : (2 * ((⟨0, 0, -2⟩ : vec3 ℝ) - ⟨5, 0, 0⟩).dot ⟨0, 0, 1⟩) ^ 2
      - 4 * (⟨0, 0, 1⟩ : vec3 ℝ).dot ⟨0, 0, 1⟩
        * (((⟨0, 0, -2⟩ : vec3 ℝ) - ⟨5, 0, 0⟩).dot ((⟨0, 0, -2⟩ : vec3 ℝ) - ⟨5, 0, 0⟩)
            - (1 : ℝ) ^ 2) < 0 := by
    simp only [vec3.dot, vec3.sub_x, vec3.sub_y, vec3.sub_z]
    norm_num
  exact ⟨h.2.1.1 hd, h.1 hd⟩

/-- The result of `intersectSphere` is below every root, when a root exists. -/
theorem intersectSphere_le_root (O D C : vec3 ℝ) (r s : ℝ) (hD : D ≠ ⟨0, 0, 0⟩)
    (hs : OnSphere O D C r s) : intersectSphere Real.sqrt O D C r ≤ s := by
  have hq := (onSphere_iff O D C r s).1 hs
  have hd : 0 ≤ 2 * (O - C).dot D * (2 * (O - C).dot D)
      - 4 * D.dot D * ((O - C).dot (O - C) - r * r) := by
    by_contra hd
    have := pos_of_disc_neg _ _ _ s (dot_self_pos D hD) (not_le.1 hd)
    linarith
  by_contra hlt
  have := outside_below_intersectSphere O D C r s hD hd (not_le.1 hlt)
  rw [← ray_dist_sq] at hq
  linarith

/-- When some root exists, the result of `intersectSphere` is itself a root. -/
theorem intersectSphere_root_of_root (O D C : vec3 ℝ) (r s : ℝ) (hD : D ≠ ⟨0, 0, 0⟩)
    (hs : OnSphere O D C r s) : OnSphere O D C r (intersectSphere Real.sqrt O D C r) := by
  have hq := (onSphere_iff O D C r s).1 hs
  apply intersectSphere_onSphere O D C r hD
  by_contra hd
  have := pos_of_disc_neg _ _ _ s (dot_self_pos D hD) (not_le.1 hd)
  linarith

/-- An origin strictly outside the sphere makes the constant term positive. -/
theorem c_pos_of_outside (O C : vec3 ℝ) (r : ℝ) (hr : 0 < r)
    (hout : r < vec3.len Real.sqrt (O - C)) : 0 < (O - C).dot (O - C) - r * r := by
  have h := not_le.2 hout
  rw [len_le_iff _ _ hr.le] at h
  linarith [not_le.1 h]

/-- C3 as stated fails: from the center of the unit sphere the quadratic has the
non-negative root `1`, yet `intersectSphere` returns the negative root `-1`,
which is not the smallest non-negative root. -/
theorem intersectSphere_not_smallest_nonneg_root_inside :
    (∃ s : ℝ, 0 ≤ s ∧ OnSphere ⟨0, 0, 0⟩ ⟨0, 0, 1⟩ ⟨0, 0, 0⟩ 1 s) ∧
    intersectSphere Real.sqrt ⟨0, 0, 0⟩ ⟨0, 0, 1⟩ ⟨0, 0, 0⟩ 1 = -1 ∧
    ¬ IsSmallestNonnegRoot ⟨0, 0, 0⟩ ⟨0, 0, 1⟩ ⟨0, 0, 0⟩ 1
        (intersectSphere Real.sqrt ⟨0, 0, 0⟩ ⟨0, 0, 1⟩ ⟨0, 0, 0⟩ 1) := by
  refine ⟨⟨1, by norm_num, ?_⟩, intersectSphere_unit_inside, ?_⟩
  · rw [onSphere_iff]
    simp only [vec3.dot, vec3.sub_x, vec3.sub_y, vec3.sub_z]
    norm_num
  · rw [intersectSphere_unit_inside]
    intro h
    have := h.1
    norm_num at this

/-- C3, amended, in exact real arithmetic: for a non-zero direction and a
positive radius, whenever the quadratic `|O + tD - C|² = r²` has a non-negative
real root, `intersectSphere` returns the smallest non-negative real root
exactly when the quadratic has no negative real root; this is the case
whenever the origin is strictly outside the sphere; otherwise it returns the
negative near root, a negative root that is below every other root. -/
theorem intersectSphere_smallest_nonneg_root_iff (O D C : vec3 ℝ) (r : ℝ)
    (hD : D ≠ ⟨0, 0, 0⟩) (hr : 0 < r) (hroot : ∃ s : ℝ, 0 ≤ s ∧ OnSphere O D C r s) :
    (IsSmallestNonnegRoot O D C r (intersectSphere Real.sqrt O D C r) ↔
      ¬ ∃ s : ℝ, s < 0 ∧ OnSphere O D C r s) ∧
    (r < vec3.len Real.sqrt (O - C) →
      IsSmallestNonnegRoot O D C r (intersectSphere Real.sqrt O D C r)) ∧
    ((∃ s : ℝ, s < 0 ∧ OnSphere O D C r s) →
      intersectSphere Real.sqrt O D C r < 0 ∧
      OnSphere O D C r (intersectSphere Real.sqrt O D C r) ∧
      ∀ s : ℝ, OnSphere O D C r s → intersectSphere Real.sqrt O D C r ≤ s) := by
  obtain ⟨s0, hs0, hon0⟩ := hroot
  have hton := intersectSphere_root_of_root O D C r s0 hD hon0
  have hiff : IsSmallestNonnegRoot O D C r (intersectSphere Real.sqrt O D C r) ↔
      ¬ ∃ s : ℝ, s < 0 ∧ OnSphere O D C r s := by
    constructor
    · rintro ⟨ht0, -, -⟩ ⟨s, hsneg, hson⟩
      have := intersectSphere_le_root O D C r s hD hson
      linarith
    · intro hno
      refine ⟨?_, hton, fun s _ hson => intersectSphere_le_root O D C r s hD hson⟩
      by_contra hneg
      exact hno ⟨_, not_le.1 hneg, hton⟩
  have hneg : (∃ s : ℝ, s < 0 ∧ OnSphere O D C r s) →
      intersectSphere Real.sqrt O D C r < 0 ∧
      OnSphere O D C r (intersectSphere Real.sqrt O D C r) ∧
      ∀ s : ℝ, OnSphere O D C r s → intersectSphere Real.sqrt O D C r ≤ s := by
    rintro ⟨s, hsneg, hson⟩
    exact ⟨lt_of_le_of_lt (intersectSphere_le_root O D C r s hD hson) hsneg, hton,
      fun u hu => intersectSphere_le_root O D C r u hD hu⟩
  refine ⟨hiff, fun hout => hiff.2 ?_, hneg⟩
  rintro ⟨s, hsneg, hson⟩
  have hc := c_pos_of_outside O C r hr hout
  have ha := dot_self_pos D hD
  have q := (onSphere_iff O D C r s).1 hson
  have q0 := (onSphere_iff O D C r s0).1 hon0
  -- two roots of opposite sign force a non-positive constant term
  rcases eq_or_lt_of_le hs0 with h0 | hpos
  · rw [← h0] at q0
    nlinarith
  · have key : (D.dot D * s * s + 2 * (O - C).dot D * s) * s0
        - (D.dot D * s0 * s0 + 2 * (O - C).dot D * s0) * s
        = D.dot D * s * s0 * (s - s0) := by ring
    have hprod : D.dot D * s * s0 * (s - s0) = ((O - C).dot (O - C) - r * r) * (s - s0) := by
      rw [← key]
      nlinarith
    have hne : s - s0 ≠ 0 := by linarith
    have hcs : D.dot D * s * s0 = (O - C).dot (O - C) - r * r :=
      mul_right_cancel₀ hne hprod
    have : D.dot D * s * s0 < 0 := by
      have := mul_neg_of_neg_of_pos (mul_neg_of_pos_of_neg ha hsneg) hpos
      linarith
    linarith

/-- C3, amended, at the ray from `(0,0,-2)` towards the unit sphere at the origin. -/
theorem intersectSphere_smallest_nonneg_root_iff_witness :
    (∃ s : ℝ, 0 ≤ s ∧ OnSphere ⟨0, 0, -2⟩ ⟨0, 0, 1⟩ ⟨0, 0, 0⟩ 1 s) ∧
    (1 : ℝ) < vec3.len Real.sqrt ((⟨0, 0, -2⟩ : vec3 ℝ) - ⟨0, 0, 0⟩) ∧
    IsSmallestNonnegRoot ⟨0, 0, -2⟩ ⟨0, 0, 1⟩ ⟨0, 0, 0⟩ 1
      (intersectSphere Real.sqrt ⟨0, 0, -2⟩ ⟨0, 0, 1⟩ ⟨0, 0, 0⟩ 1) := by
  have hroot : ∃ s : ℝ, 0 ≤ s ∧ OnSphere ⟨0, 0, -2⟩ ⟨0, 0, 1⟩ ⟨0, 0, 0⟩ 1 s := by
    refine ⟨1, by norm_num, ?_⟩
    rw [onSphere_iff]
    simp only [vec3.dot, vec3.sub_x, vec3.sub_y, vec3.sub_z]
    norm_num
  have hout : (1 : ℝ) < vec3.len Real.sqrt ((⟨0, 0, -2⟩ : vec3 ℝ) - ⟨0, 0, 0⟩) := by
    simp only [vec3.len, vec3.dot, vec3.sub_x, vec3.sub_y, vec3.sub_z]
    rw [Real.lt_sqrt (by norm_num)]
    norm_num
  exact ⟨hroot, hout,
    (intersectSphere_smallest_nonneg_root_iff ⟨0, 0, -2⟩ ⟨0, 0, 1⟩ ⟨0, 0, 0⟩ 1 dir_ne_zero
      (by norm_num) hroot).2.1 hout⟩

/-- C4, amended, in exact real arithmetic:
for a positive radius and an origin strictly outside the sphere, a unit
direction that points from the origin straight at the center (`C - O` is a
positive multiple `k` of `D`) makes `intersectSphere` return `|O - C| - r`; in
particular the ray from `(0,0,-Z)` with direction `(0,0,1)` meets the sphere of
radius `R` at the origin, `0 < R < Z`, at `Z - R`. -/
theorem intersectSphere_towards_center :
    (∀ (O D C : vec3 ℝ) (r k : ℝ), 0 < r → r < vec3.len Real.sqrt (O - C) →
      vec3.len Real.sqrt D = 1 → 0 < k → C - O = D * k →
      intersectSphere Real.sqrt O D C r = vec3.len Real.sqrt (O - C) - r) ∧
    (∀ R Z : ℝ, 0 < R → R < Z →
      intersectSphere Real.sqrt ⟨0, 0, -Z⟩ dir ⟨0, 0, 0⟩ R = Z - R) := by
  have general : ∀ (O D C : vec3 ℝ) (r k : ℝ), 0 < r → r < vec3.len Real.sqrt (O - C) →
      vec3.len Real.sqrt D = 1 → 0 < k → C - O = D * k →
      intersectSphere Real.sqrt O D C r = vec3.len Real.sqrt (O - C) - r := by
    intro O D C r k hr _ hunit hk hdir
    have hD1 : D.dot D = 1 := by
      have := len_sq D
      rw [hunit] at this
      linarith
    obtain ⟨hx, hy, hz⟩ := (vec3.eq_iff _ _).1 hdir
    simp only [vec3.sub_x, vec3.sub_y, vec3.sub_z, vec3.mul_x, vec3.mul_y, vec3.mul_z]
      at hx hy hz
    have hocD : (O - C).dot D = -k := by
      simp only [vec3.dot, vec3.sub_x, vec3.sub_y, vec3.sub_z] at hD1 ⊢
      have ex : O.x - C.x = -(D.x * k) := by linarith
      have ey : O.y - C.y = -(D.y * k) := by linarith
      have ez : O.z - C.z = -(D.z * k) := by linarith
      rw [ex, ey, ez]
      linear_combination -k * hD1
    have hococ : (O - C).dot (O - C) = k * k := by
      simp only [vec3.dot, vec3.sub_x, vec3.sub_y, vec3.sub_z] at hD1 ⊢
      have ex : O.x - C.x = -(D.x * k) := by linarith
      have ey : O.y - C.y = -(D.y * k) := by linarith
      have ez : O.z - C.z = -(D.z * k) := by linarith
      rw [ex, ey, ez]
      linear_combination k * k * hD1
    have hlen : vec3.len Real.sqrt (O - C) = k := by
      simp only [vec3.len]
      rw [hococ]
      exact Real.sqrt_mul_self hk.le
    have hdisc : 2 * (O - C).dot D * (2 * (O - C).dot D)
        - 4 * D.dot D * ((O - C).dot (O - C) - r * r) = (2 * r) * (2 * r) := by
      rw [hocD, hococ, hD1]
      ring
    rw [intersectSphere_of_nonneg O D C r (by rw [hdisc]; nlinarith), hdisc,
      Real.sqrt_mul_self (by linarith), hocD, hD1, hlen]
    ring
  refine ⟨general, ?_⟩
  intro R Z hR hRZ
  have hZ : 0 < Z := by linarith
  have hlen : vec3.len Real.sqrt ((⟨0, 0, -Z⟩ : vec3 ℝ) - ⟨0, 0, 0⟩) = Z := by
    simp only [vec3.len, vec3.dot, vec3.sub_x, vec3.sub_y, vec3.sub_z]
    rw [show (0 - 0) * (0 - 0) + (0 - 0) * (0 - 0) + (-Z - 0) * (-Z - 0) = Z * Z by ring]
    exact Real.sqrt_mul_self hZ.le
  have h := general ⟨0, 0, -Z⟩ dir ⟨0, 0, 0⟩ R Z hR (by rw [hlen]; exact hRZ)
    (by simp [vec3.len, vec3.dot, dir]) hZ
    (by rw [vec3.eq_iff]; simp [dir])
  rw [h, hlen]

/-- C4 at the origin `(0,0,-30)` of the camera plane and a sphere of radius `7`
centered at the origin of the scene. -/
theorem intersectSphere_towards_center_witness :
    (0 : ℝ) < 7 ∧ (7 : ℝ) < 30 ∧
    intersectSphere Real.sqrt ⟨0, 0, -30⟩ dir ⟨0, 0, 0⟩ 7 = 30 - 7 :=
  ⟨by norm_num, by norm_num,
    intersectSphere_towards_center.2 7 30 (by norm_num) (by norm_num)⟩

/-- C6, amended, in exact real arithmetic:
with the ray direction `(0,0,1)`, a positive radius `R` and an origin
whose x-coordinate satisfies `|O.x| > R + |C.x|`, `intersectSphere` returns the
miss value `-1`; and when this holds for each of the four spheres the pixel
prints the blank. -/
theorem intersectSphere_miss_beyond_x :
    (∀ (O C : vec3 ℝ) (R : ℝ), 0 < R → R + |C.x| < |O.x| →
      intersectSphere Real.sqrt O dir C R = -1) ∧
    (∀ (light carbon oxygen hyd1 hyd2 O : vec3 ℝ),
      radius_carbon + |carbon.x| < |O.x| → radius_oxygen + |oxygen.x| < |O.x| →
      radius_h1 + |hyd1.x| < |O.x| → radius_h2 + |hyd2.x| < |O.x| →
      pixel Real.sqrt light carbon oxygen hyd1 hyd2 O = some ' ') := by
  have miss : ∀ (O C : vec3 ℝ) (R : ℝ), 0 < R → R + |C.x| < |O.x| →
      intersectSphere Real.sqrt O dir C R = -1 := by
    intro O C R hR hx
    apply intersectSphere_of_neg
    have habs : R < |O.x - C.x| := by
      have := abs_sub_abs_le_abs_sub O.x C.x
      linarith
    have hsq : R * R < (O.x - C.x) * (O.x - C.x) := by
      rw [← abs_mul_abs_self (O.x - C.x)]
      nlinarith
    simp only [vec3.dot, vec3.sub_x, vec3.sub_y, vec3.sub_z, dir]
    nlinarith [mul_self_nonneg (O.y - C.y)]
  refine ⟨miss, ?_⟩
  intro light carbon oxygen hyd1 hyd2 O hc ho h1 h2
  have r1 : (0 : ℝ) < radius_carbon := by norm_num [radius_carbon]
  have r2 : (0 : ℝ) < radius_oxygen := by norm_num [radius_oxygen]
  have r3 : (0 : ℝ) < radius_h1 := by norm_num [radius_h1]
  have r4 : (0 : ℝ) < radius_h2 := by norm_num [radius_h2]
  simp only [pixel, miss O carbon _ r1 hc, miss O oxygen _ r2 ho, miss O hyd1 _ r3 h1,
    miss O hyd2 _ r4 h2]
  norm_num

/-- C6 at the last column of the grid, with the four spheres at rest: each
sphere is missed and the pixel prints the blank. -/
theorem intersectSphere_miss_beyond_x_witness :
    (0 : ℝ) < radius_carbon ∧
    (radius_carbon : ℝ) + |(center_carbon : vec3 ℝ).x| < |(origin 39 0 : vec3 ℝ).x| ∧
    intersectSphere Real.sqrt (origin 39 0) dir center_carbon radius_carbon = -1 ∧
    pixel Real.sqrt (light Real.sqrt) center_carbon center_oxygen center_h1 center_h2
      (origin 39 0) = some ' ' := by
  have hO : (origin 39 0 : vec3 ℝ).x = 39 / 2 := by
    norm_num [origin, width]
  have h0 : (0 : ℝ) < radius_carbon := by norm_num [radius_carbon]
  have hc : (radius_carbon : ℝ) + |(center_carbon : vec3 ℝ).x| < |(origin 39 0 : vec3 ℝ).x| := by
    simp only [hO, radius_carbon, center_carbon]
    rw [abs_of_neg (by norm_num), abs_of_pos (by norm_num)]
    norm_num
  have ho : (radius_oxygen : ℝ) + |(center_oxygen : vec3 ℝ).x| < |(origin 39 0 : vec3 ℝ).x| := by
    simp only [hO, radius_oxygen, center_oxygen]
    rw [abs_of_pos (by norm_num), abs_of_pos (by norm_num)]
    norm_num
  have h1 : (radius_h1 : ℝ) + |(center_h1 : vec3 ℝ).x| < |(origin 39 0 : vec3 ℝ).x| := by
    simp only [hO, radius_h1, center_h1]
    rw [abs_of_neg (by norm_num), abs_of_pos (by norm_num)]
    norm_num
  have h2 : (radius_h2 : ℝ) + |(center_h2 : vec3 ℝ).x| < |(origin 39 0 : vec3 ℝ).x| := by
    simp only [hO, radius_h2, center_h2]
    rw [abs_of_pos (by norm_num), abs_of_pos (by norm_num)]
    norm_num
  exact ⟨h0, hc, intersectSphere_miss_beyond_x.1 _ _ _ h0 hc,
    intersectSphere_miss_beyond_x.2 _ _ _ _ _ _ hc ho h1 h2⟩

end Intersection

/-! ## Rigid rotation -/

section Rotation

/-- Components of `rotateCoordinates` about the x axis. -/
theorem rotateCoordinates_axis0 (p : vec3 ℝ) (t : ℝ) :
    rotateCoordinates Real.cos Real.sin p t 0
      = ⟨p.x, p.y * Real.cos t - p.z * Real.sin t, p.y * Real.sin t + p.z * Real.cos t⟩ := by
  simp [rotateCoordinates]

/-- Components of `rotateCoordinates` about the y axis. -/
theorem rotateCoordinates_axis1 (p : vec3 ℝ) (t : ℝ) :
    rotateCoordinates Real.cos Real.sin p t 1
      = ⟨p.z * Real.sin t + p.x * Real.cos t, p.y, p.z * Real.cos t - p.x * Real.sin t⟩ := by
  simp [rotateCoordinates]

/-- Components of `rotateCoordinates` about the z axis. -/
theorem rotateCoordinates_axis2 (p : vec3 ℝ) (t : ℝ) :
    rotateCoordinates Real.cos Real.sin p t 2
      = ⟨p.x * Real.cos t - p.y * Real.sin t, p.x * Real.sin t + p.y * Real.cos t, p.z⟩ := by
  simp [rotateCoordinates]

/-- For an axis selector other than 0, 1, 2 `rotateCoordinates` returns its argument. -/
theorem rotateCoordinates_other (p : vec3 ℝ) (t : ℝ) (axis : Int)
    (h0 : axis ≠ 0) (h1 : axis ≠ 1) (h2 : axis ≠ 2) :
    rotateCoordinates Real.cos Real.sin p t axis = p := by
  simp [rotateCoordinates, h0, h1, h2]

/-- Rotating two points with the same angle and axis preserves the dot product
of their difference with itself. -/
theorem rotateCoordinates_sub_dot (p q : vec3 ℝ) (t : ℝ) (axis : Int) :
    (rotateCoordinates Real.cos Real.sin p t axis
        - rotateCoordinates Real.cos Real.sin q t axis).dot
      (rotateCoordinates Real.cos Real.sin p t axis
        - rotateCoordinates Real.cos Real.sin q t axis)
      = (p - q).dot (p - q) := by
  have hcs := Real.cos_sq_add_sin_sq t
  by_cases h0 : axis = 0
  · subst h0
    rw [rotateCoordinates_axis0, rotateCoordinates_axis0]
    simp only [vec3.dot, vec3.sub_x, vec3.sub_y, vec3.sub_z]
    linear_combination ((p.y - q.y) ^ 2 + (p.z - q.z) ^ 2) * hcs
  by_cases h1 : axis = 1
  · subst h1
    rw [rotateCoordinates_axis1, rotateCoordinates_axis1]
    simp only [vec3.dot, vec3.sub_x, vec3.sub_y, vec3.sub_z]
    linear_combination ((p.x - q.x) ^ 2 + (p.z - q.z) ^ 2) * hcs
  by_cases h2 : axis = 2
  · subst h2
    rw [rotateCoordinates_axis2, rotateCoordinates_axis2]
    simp only [vec3.dot, vec3.sub_x, vec3.sub_y, vec3.sub_z]
    linear_combination ((p.x - q.x) ^ 2 + (p.y - q.y) ^ 2) * hcs
  rw [rotateCoordinates_other p t axis h0 h1 h2, rotateCoordinates_other q t axis h0 h1 h2]

/-- Rotating two points with the same angle and axis preserves their distance. -/
theorem rotateCoordinates_sub_len (p q : vec3 ℝ) (t : ℝ) (axis : Int) :
    vec3.len Real.sqrt (rotateCoordinates Real.cos Real.sin p t axis
        - rotateCoordinates Real.cos Real.sin q t axis)
      = vec3.len Real.sqrt (p - q) := by
  simp only [vec3.len]
  rw [rotateCoordinates_sub_dot]

/-- C7: for every point, angle and axis selector (0, 1, 2 or any other integer),
`rotateCoordinates` preserves the distance from the origin. -/
theorem rotateCoordinates_preserves_len (p : vec3 ℝ) (t : ℝ) (axis : Int) :
    vec3.len Real.sqrt (rotateCoordinates Real.cos Real.sin p t axis)
      = vec3.len Real.sqrt p := by
  have hcs := Real.cos_sq_add_sin_sq t
  simp only [vec3.len]
  congr 1
  by_cases h0 : axis = 0
  · subst h0
    rw [rotateCoordinates_axis0]
    simp only [vec3.dot]
    linear_combination (p.y ^ 2 + p.z ^ 2) * hcs
  by_cases h1 : axis = 1
  · subst h1
    rw [rotateCoordinates_axis1]
    simp only [vec3.dot]
    linear_combination (p.x ^ 2 + p.z ^ 2) * hcs
  by_cases h2 : axis = 2
  · subst h2
    rw [rotateCoordinates_axis2]
    simp only [vec3.dot]
    linear_combination (p.x ^ 2 + p.y ^ 2) * hcs
  rw [rotateCoordinates_other p t axis h0 h1 h2]

/-- C8, amended, in exact real arithmetic:
rotating two points with the same angle and axis preserves their mutual
distance; so in every frame the four rotated sphere centers keep the pairwise
distances of the four rest centers. -/
theorem rotateCoordinates_preserves_dist :
    (∀ (p q : vec3 ℝ) (t : ℝ) (axis : Int),
      vec3.len Real.sqrt (rotateCoordinates Real.cos Real.sin p t axis
          - rotateCoordinates Real.cos Real.sin q t axis)
        = vec3.len Real.sqrt (p - q)) ∧
    (∀ radians : Int,
      vec3.len Real.sqrt (carbon Real.cos Real.sin radians - oxygen Real.cos Real.sin radians)
        = vec3.len Real.sqrt (center_carbon - center_oxygen) ∧
      vec3.len Real.sqrt (carbon Real.cos Real.sin radians - hyd1 Real.cos Real.sin radians)
        = vec3.len Real.sqrt (center_carbon - center_h1) ∧
      vec3.len Real.sqrt (carbon Real.cos Real.sin radians - hyd2 Real.cos Real.sin radians)
        = vec3.len Real.sqrt (center_carbon - center_h2) ∧
      vec3.len Real.sqrt (oxygen Real.cos Real.sin radians - hyd1 Real.cos Real.sin radians)
        = vec3.len Real.sqrt (center_oxygen - center_h1) ∧
      vec3.len Real.sqrt (oxygen Real.cos Real.sin radians - hyd2 Real.cos Real.sin radians)
        = vec3.len Real.sqrt (center_oxygen - center_h2) ∧
      vec3.len Real.sqrt (hyd1 Real.cos Real.sin radians - hyd2 Real.cos Real.sin radians)
        = vec3.len Real.sqrt (center_h1 - center_h2)) := by
  refine ⟨rotateCoordinates_sub_len, fun radians => ?_⟩
  simp only [carbon, oxygen, hyd1, hyd2]
  exact ⟨rotateCoordinates_sub_len _ _ _ _, rotateCoordinates_sub_len _ _ _ _,
    rotateCoordinates_sub_len _ _ _ _, rotateCoordinates_sub_len _ _ _ _,
    rotateCoordinates_sub_len _ _ _ _, rotateCoordinates_sub_len _ _ _ _⟩

/-- C9: for every point and axis selector, rotation by 0 radians is the identity. -/
theorem rotateCoordinates_zero (p : vec3 ℝ) (axis : Int) :
    rotateCoordinates Real.cos Real.sin p 0 axis = p := by
  by_cases h0 : axis = 0
  · subst h0
    rw [rotateCoordinates_axis0, vec3.eq_iff]
    simp
  by_cases h1 : axis = 1
  · subst h1
    rw [rotateCoordinates_axis1, vec3.eq_iff]
    simp
  by_cases h2 : axis = 2
  · subst h2
    rw [rotateCoordinates_axis2, vec3.eq_iff]
    simp
  exact rotateCoordinates_other p 0 axis h0 h1 h2

/-- C10: for every point, angle and axis selector, rotating by `theta` and then
by `-theta` about the same axis returns the original point. -/
theorem rotateCoordinates_neg_inverse (p : vec3 ℝ) (t : ℝ) (axis : Int) :
    rotateCoordinates Real.cos Real.sin (rotateCoordinates Real.cos Real.sin p t axis) (-t) axis
      = p := by
  have hcs := Real.cos_sq_add_sin_sq t
  by_cases h0 : axis = 0
  · subst h0
    rw [rotateCoordinates_axis0, rotateCoordinates_axis0, vec3.eq_iff]
    simp only [Real.cos_neg, Real.sin_neg]
    refine ⟨trivial, ?_, ?_⟩
    · linear_combination p.y * hcs
    · linear_combination p.z * hcs
  by_cases h1 : axis = 1
  · subst h1
    rw [rotateCoordinates_axis1, rotateCoordinates_axis1, vec3.eq_iff]
    simp only [Real.cos_neg, Real.sin_neg]
    refine ⟨?_, trivial, ?_⟩
    · linear_combination p.x * hcs
    · linear_combination p.z * hcs
  by_cases h2 : axis = 2
  · subst h2
    rw [rotateCoordinates_axis2, rotateCoordinates_axis2, vec3.eq_iff]
    simp only [Real.cos_neg, Real.sin_neg]
    refine ⟨?_, ?_, trivial⟩
    · linear_combination p.x * hcs
    · linear_combination p.y * hcs
  rw [rotateCoordinates_other _ (-t) axis h0 h1 h2, rotateCoordinates_other p t axis h0 h1 h2]

end Rotation

/-! ## Glyph selection -/

section Glyph

/-- The ramp has eight glyphs. -/
theorem numColors_eq : ((numColors : Nat) : ℝ) = 8 := by
  simp [numColors, colors]

/-- On a non-negative luminance the index is the floor of eight times the luminance. -/
theorem glyphIndex_of_nonneg (l : ℝ) (h : 0 ≤ l) : glyphIndex l = Int.floor (8 * l) := by
  have h8 : ¬ (8 * l < 0) := not_lt.2 (by linarith)
  simp only [glyphIndex, truncToInt, numColors_eq, if_neg (not_lt.2 h), if_neg h8]

/-- On a negative luminance the index is zero. -/
theorem glyphIndex_of_neg (l : ℝ) (h : l < 0) : glyphIndex l = 0 := by
  simp only [glyphIndex, if_pos h]

/-- The index is never negative. -/
theorem glyphIndex_nonneg (l : ℝ) : 0 ≤ glyphIndex l := by
  rcases lt_or_le l 0 with h | h
  · rw [glyphIndex_of_neg l h]
  · rw [glyphIndex_of_nonneg l h]
    exact Int.floor_nonneg.2 (by linarith)

/-- Below luminance one the index is at most seven. -/
theorem glyphIndex_le_seven (l : ℝ) (h : l < 1) : glyphIndex l ≤ 7 := by
  rcases lt_or_le l 0 with h0 | h0
  · rw [glyphIndex_of_neg l h0]
    norm_num
  · rw [glyphIndex_of_nonneg l h0]
    have : Int.floor (8 * l) < 8 := Int.floor_lt.2 (by push_cast; linarith)
    omega

/-- The character of a hit branch is the read of `colors` at `glyphIndex` of the luminance. -/
theorem shade_eq (light origin center : vec3 ℝ) (t : ℝ) :
    shade Real.sqrt light origin center t
      = colorAt (glyphIndex
          ((vec3.normalize Real.sqrt (origin + (dir : vec3 ℝ) * t - center)).dot (-light))) := by
  simp only [shade, glyphIndex]
  split <;> rfl

/-- C11: the index used on a hit (0 when the luminance is negative, otherwise
the truncation of 8 times the luminance) is monotonic for luminances
`l1 ≤ l2 < 1`, and on `[0, 1)` it equals `floor (8 * luminance)` and lies in
`0..7`. -/
theorem glyphIndex_monotone :
    (∀ l1 l2 : ℝ, l1 ≤ l2 → l2 < 1 → glyphIndex l1 ≤ glyphIndex l2) ∧
    (∀ l : ℝ, 0 ≤ l → l < 1 →
      glyphIndex l = Int.floor (8 * l) ∧ 0 ≤ glyphIndex l ∧ glyphIndex l ≤ 7) := by
  constructor
  · intro l1 l2 h12 _
    rcases lt_or_le l1 0 with h1 | h1
    · rw [glyphIndex_of_neg l1 h1]
      exact glyphIndex_nonneg l2
    · rw [glyphIndex_of_nonneg l1 h1, glyphIndex_of_nonneg l2 (le_trans h1 h12)]
      exact Int.floor_mono (by linarith)
  · intro l h0 h1
    exact ⟨glyphIndex_of_nonneg l h0, glyphIndex_nonneg l, glyphIndex_le_seven l h1⟩

/-- C11 at the luminances `1/4` and `1/2`. -/
theorem glyphIndex_monotone_witness :
    (1 / 4 : ℝ) ≤ 1 / 2 ∧ (1 / 2 : ℝ) < 1 ∧
    glyphIndex (1 / 4 : ℝ) ≤ glyphIndex (1 / 2 : ℝ) :=
  ⟨by norm_num, by norm_num, glyphIndex_monotone.1 _ _ (by norm_num) (by norm_num)⟩

end Glyph

/-! ## The frame loop -/

section Loop

/-- The loop counter takes the values `0, ..., 627`. -/
theorem mem_frameCounters (r : Int) : r ∈ frameCounters ↔ 0 ≤ r ∧ r < loopNumber := by
  simp only [frameCounters, loopNumber, List.mem_map, List.mem_range]
  constructor
  · rintro ⟨n, hn, rfl⟩
    have : n < 628 := hn
    constructor
    · exact Int.ofNat_nonneg n
    · show (n : Int) < 628
      omega
  · rintro ⟨h0, h1⟩
    refine ⟨r.toNat, ?_, ?_⟩
    · show r.toNat < 628
      omega
    · show (r.toNat : Int) = r
      omega

/-- The last value of the loop counter is 627. -/
theorem frameCounters_getLast : frameCounters.getLast? = some 627 := by
  simp only [frameCounters, List.getLast?_map, List.getLast?_range, loopNumber]
  rfl

/-- The angle of the last rendered frame is `627 / 100`. -/
theorem frameThetas_getLast : (frameThetas : List ℝ).getLast? = some (627 / 100) := by
  simp only [frameThetas, List.getLast?_map, frameCounters_getLast, Option.map_some', theta]
  norm_num

/-- C13 as stated fails: the angle used by the last rendered frame is not 6.28. -/
theorem frameThetas_getLast_ne :
    (frameThetas : List ℝ).getLast? ≠ some (628 / 100) := by
  rw [frameThetas_getLast]
  intro h
  have := Option.some.inj h
  norm_num at this

/-- C13, amended: with the loop bound of 628 frames and `theta = counter / 100`
per frame, 628 frames are rendered, the counter of the last one is 627 and the
angle it uses is 6.27 rad. -/
theorem frameThetas_final :
    (frameThetas : List ℝ).length = 628 ∧
    frameCounters.getLast? = some 627 ∧
    (frameThetas : List ℝ).getLast? = some (627 / 100) := by
  refine ⟨?_, frameCounters_getLast, frameThetas_getLast⟩
  simp [frameThetas, frameCounters, loopNumber]

/-- C14, on the code: the loop renders 628 frames and every angle it uses lies
in `[0, 6.27]`, below one full rotation `2π`; any two of the angles differ by
less than `2π`, so the run does not sweep two full rotations `2 * (2π)`. -/
theorem frameThetas_below_one_turn :
    (frameThetas : List ℝ).length = 628 ∧
    (∀ t ∈ (frameThetas : List ℝ), 0 ≤ t ∧ t ≤ 627 / 100 ∧ t < 2 * Real.pi) ∧
    (∀ t1 ∈ (frameThetas : List ℝ), ∀ t2 ∈ (frameThetas : List ℝ),
      t2 - t1 < 2 * Real.pi ∧ ¬ 2 * (2 * Real.pi) ≤ t2 - t1) := by
  have hpi := Real.pi_gt_d2
  have hmem : ∀ t ∈ (frameThetas : List ℝ), 0 ≤ t ∧ t ≤ 627 / 100 ∧ t < 2 * Real.pi := by
    intro t ht
    simp only [frameThetas, List.mem_map] at ht
    obtain ⟨r, hr, rfl⟩ := ht
    obtain ⟨h0, h1⟩ := (mem_frameCounters r).1 hr
    have h0r : (0 : ℝ) ≤ (r : ℝ) := by exact_mod_cast h0
    have h1r : (r : ℝ) ≤ 627 := by
      have : r ≤ 627 := by simp only [loopNumber] at h1; omega
      exact_mod_cast this
    simp only [theta]
    refine ⟨by positivity, by linarith, ?_⟩
    norm_num at hpi
    linarith
  refine ⟨by simp [frameThetas, frameCounters, loopNumber], hmem, ?_⟩
  intro t1 h1 t2 h2
  have a := hmem t1 h1
  have b := hmem t2 h2
  constructor
  · linarith [a.1, b.2.2]
  · have := Real.pi_pos
    linarith [a.1, b.2.2]

end Loop

/-! ## Normalization -/

section Normalize

/-- The squared length of a normalized non-zero vector is one. -/
theorem normalize_dot_self (v : vec3 ℝ) (hv : 0 < v.dot v) :
    (vec3.normalize Real.sqrt v).dot (vec3.normalize Real.sqrt v) = 1 := by
  have hL : 0 < Real.sqrt (v.dot v) := Real.sqrt_pos.2 hv
  have hLL : Real.sqrt (v.dot v) * Real.sqrt (v.dot v) = v.dot v := Real.mul_self_sqrt hv.le
  simp only [vec3.normalize, vec3.len]
  simp only [vec3.dot] at hLL hL ⊢
  field_simp
  linarith

/-- The squared length of `(-1, 1, 1)` is three. -/
theorem light_raw_dot : (⟨-1, 1, 1⟩ : vec3 ℝ).dot ⟨-1, 1, 1⟩ = 3 := by
  simp only [vec3.dot]
  norm_num

/-- C15, amended, in exact real arithmetic:
`normalize` divides each component by the original length and yields
a vector of length 1 for every non-zero input; in particular the light vector,
the normalized `(-1, 1, 1)` that every pixel of every frame uses, has length 1. -/
theorem normalize_unit :
    (∀ v : vec3 ℝ, v ≠ ⟨0, 0, 0⟩ →
      vec3.normalize Real.sqrt v = v / vec3.len Real.sqrt v ∧
      vec3.len Real.sqrt (vec3.normalize Real.sqrt v) = 1) ∧
    vec3.len Real.sqrt (light Real.sqrt : vec3 ℝ) = 1 ∧
    (∀ radians x y : Int,
      cell Real.sqrt Real.cos Real.sin radians x y
        = pixel Real.sqrt (light Real.sqrt) (carbon Real.cos Real.sin radians)
            (oxygen Real.cos Real.sin radians) (hyd1 Real.cos Real.sin radians)
            (hyd2 Real.cos Real.sin radians) (origin x y)) := by
  refine ⟨fun v hv => ⟨rfl, ?_⟩, ?_, fun _ _ _ => rfl⟩
  · simp only [vec3.len]
    rw [normalize_dot_self v (dot_self_pos v hv), Real.sqrt_one]
  · simp only [vec3.len, light]
    rw [normalize_dot_self _ (by rw [light_raw_dot]; norm_num), Real.sqrt_one]

/-- C15 at the vector `(-1, 1, 1)` that `main` normalizes. -/
theorem normalize_unit_witness :
    (⟨-1, 1, 1⟩ : vec3 ℝ) ≠ ⟨0, 0, 0⟩ ∧
    vec3.len Real.sqrt (vec3.normalize Real.sqrt (⟨-1, 1, 1⟩ : vec3 ℝ)) = 1 := by
  have hne : (⟨-1, 1, 1⟩ : vec3 ℝ) ≠ ⟨0, 0, 0⟩ := by
    intro h
    have := congrArg vec3.z h
    norm_num at this
  exact ⟨hne, (normalize_unit.1 _ hne).2⟩

end Normalize

/-! ## Hit resolution -/

section Resolution

/-- A read of `colors` that succeeds yields one of the ramp glyphs. -/
theorem colorAt_mem (i : Int) (c : Char) (h : colorAt i = some c) : c ∈ colors := by
  simp only [colorAt] at h
  split at h
  · exact List.getElem?_mem h
  · exact absurd h (by simp)

/-- The blank is not a ramp glyph. -/
theorem blank_not_mem_colors : ' ' ∉ colors := by
  decide

/-- A hit branch never prints the blank. -/
theorem shade_ne_blank (light origin center : vec3 ℝ) (t : ℝ) :
    shade Real.sqrt light origin center t ≠ some ' ' := by
  rw [shade_eq]
  intro h
  exact blank_not_mem_colors (colorAt_mem _ _ h)

/-- A ray down the z axis through the center of a sphere meets it at the
distance to the center minus the radius. -/
theorem intersectSphere_axis (O C : vec3 ℝ) (R : ℝ) (hx : O.x = C.x) (hy : O.y = C.y)
    (hR : 0 ≤ R) : intersectSphere Real.sqrt O dir C R = C.z - O.z - R := by
  have hd : 2 * (O - C).dot dir * (2 * (O - C).dot dir)
      - 4 * (dir : vec3 ℝ).dot dir * ((O - C).dot (O - C) - R * R) = (2 * R) * (2 * R) := by
    simp only [vec3.dot, vec3.sub_x, vec3.sub_y, vec3.sub_z, dir, hx, hy]
    ring
  rw [intersectSphere_of_nonneg O dir C R (by rw [hd]; nlinarith), hd,
    Real.sqrt_mul_self (by linarith)]
  simp only [vec3.dot, vec3.sub_x, vec3.sub_y, vec3.sub_z, dir]
  ring

/-- C16: the pixel is shaded with the first sphere in the order carbon, oxygen,
hydrogen-1, hydrogen-2 whose hit parameter is strictly positive, whatever the
later parameters are, and the blank is printed exactly when none of the four
parameters is strictly positive. -/
theorem pixel_first_positive (light carbon oxygen hyd1 hyd2 O : vec3 ℝ) :
    (0 < intersectSphere Real.sqrt O dir carbon radius_carbon →
      pixel Real.sqrt light carbon oxygen hyd1 hyd2 O
        = shade Real.sqrt light O carbon
            (intersectSphere Real.sqrt O dir carbon radius_carbon)) ∧
    (¬ 0 < intersectSphere Real.sqrt O dir carbon radius_carbon →
      0 < intersectSphere Real.sqrt O dir oxygen radius_oxygen →
      pixel Real.sqrt light carbon oxygen hyd1 hyd2 O
        = shade Real.sqrt light O oxygen
            (intersectSphere Real.sqrt O dir oxygen radius_oxygen)) ∧
    (¬ 0 < intersectSphere Real.sqrt O dir carbon radius_carbon →
      ¬ 0 < intersectSphere Real.sqrt O dir oxygen radius_oxygen →
      0 < intersectSphere Real.sqrt O dir hyd1 radius_h1 →
      pixel Real.sqrt light carbon oxygen hyd1 hyd2 O
        = shade Real.sqrt light O hyd1
            (intersectSphere Real.sqrt O dir hyd1 radius_h1)) ∧
    (¬ 0 < intersectSphere Real.sqrt O dir carbon radius_carbon →
      ¬ 0 < intersectSphere Real.sqrt O dir oxygen radius_oxygen →
      ¬ 0 < intersectSphere Real.sqrt O dir hyd1 radius_h1 →
      0 < intersectSphere Real.sqrt O dir hyd2 radius_h2 →
      pixel Real.sqrt light carbon oxygen hyd1 hyd2 O
        = shade Real.sqrt light O hyd2
            (intersectSphere Real.sqrt O dir hyd2 radius_h2)) ∧
    (pixel Real.sqrt light carbon oxygen hyd1 hyd2 O = some ' ' ↔
      ¬ 0 < intersectSphere Real.sqrt O dir carbon radius_carbon ∧
      ¬ 0 < intersectSphere Real.sqrt O dir oxygen radius_oxygen ∧
      ¬ 0 < intersectSphere Real.sqrt O dir hyd1 radius_h1 ∧
      ¬ 0 < intersectSphere Real.sqrt O dir hyd2 radius_h2) := by
  refine ⟨?_, ?_, ?_, ?_, ?_⟩
  · intro hc
    simp only [pixel, gt_iff_lt, if_pos hc]
  · intro hc ho
    simp only [pixel, gt_iff_lt, if_neg hc, if_pos ho]
  · intro hc ho h1
    simp only [pixel, gt_iff_lt, if_neg hc, if_neg ho, if_pos h1]
  · intro hc ho h1 h2
    simp only [pixel, gt_iff_lt, if_neg hc, if_neg ho, if_neg h1, if_pos h2]
  · constructor
    · intro h
      by_cases hc : 0 < intersectSphere Real.sqrt O dir carbon radius_carbon
      · simp only [pixel, gt_iff_lt, if_pos hc] at h
        exact absurd h (shade_ne_blank _ _ _ _)
      by_cases ho : 0 < intersectSphere Real.sqrt O dir oxygen radius_oxygen
      · simp only [pixel, gt_iff_lt, if_neg hc, if_pos ho] at h
        exact absurd h (shade_ne_blank _ _ _ _)
      by_cases h1 : 0 < intersectSphere Real.sqrt O dir hyd1 radius_h1
      · simp only [pixel, gt_iff_lt, if_neg hc, if_neg ho, if_pos h1] at h
        exact absurd h (shade_ne_blank _ _ _ _)
      by_cases h2 : 0 < intersectSphere Real.sqrt O dir hyd2 radius_h2
      · simp only [pixel, gt_iff_lt, if_neg hc, if_neg ho, if_neg h1, if_pos h2] at h
        exact absurd h (shade_ne_blank _ _ _ _)
      exact ⟨hc, ho, h1, h2⟩
    · rintro ⟨hc, ho, h1, h2⟩
      simp only [pixel, gt_iff_lt, if_neg hc, if_neg ho, if_neg h1, if_neg h2]

end Resolution

/-! ## The fixed scene -/

section Scene

/-- The direction of the camera rays is not the zero vector. -/
theorem dir_ne : (dir : vec3 ℝ) ≠ ⟨0, 0, 0⟩ :=
  dir_ne_zero

/-- Each sphere of a frame is a rest center with `z = 0` and `|x| ≤ 12`,
rotated about the y axis, with a rational y-coordinate and a rational radius in
`(0, 8]`. -/
theorem spheres_facts (radians : Int) (s : vec3 ℝ × ℝ)
    (hs : s ∈ spheres Real.cos Real.sin radians) :
    ∃ c : vec3 ℝ, s.1 = rotateCoordinates Real.cos Real.sin c (theta radians) 1 ∧
      c.z = 0 ∧ |c.x| ≤ 12 ∧ 0 < s.2 ∧ s.2 ≤ 8 ∧
      ∃ qc qr : ℚ, c.y = (qc : ℝ) ∧ s.2 = (qr : ℝ) := by
  simp only [spheres, List.mem_cons, List.mem_singleton, List.not_mem_nil, or_false] at hs
  rcases hs with rfl | rfl | rfl | rfl
  · refine ⟨center_carbon, rfl, rfl, ?_, ?_, ?_, -122224 / 100000, 77 / 10, ?_, ?_⟩
    · simp only [center_carbon]; rw [abs_le]; constructor <;> norm_num
    · norm_num [radius_carbon]
    · norm_num [radius_carbon]
    · simp only [center_carbon]; push_cast; ring
    · simp only [radius_carbon]; push_cast; ring
  · refine ⟨center_oxygen, rfl, rfl, ?_, ?_, ?_, 83238 / 100000, 66 / 10, ?_, ?_⟩
    · simp only [center_oxygen]; rw [abs_le]; constructor <;> norm_num
    · norm_num [radius_oxygen]
    · norm_num [radius_oxygen]
    · simp only [center_oxygen]; push_cast; ring
    · simp only [radius_oxygen]; push_cast; ring
  · refine ⟨center_h1, rfl, rfl, ?_, ?_, ?_, 918588 / 100000, 32 / 10, ?_, ?_⟩
    · simp only [center_h1]; rw [abs_le]; constructor <;> norm_num
    · norm_num [radius_h1]
    · norm_num [radius_h1]
    · simp only [center_h1]; push_cast; ring
    · simp only [radius_h1]; push_cast; ring
  · refine ⟨center_h2, rfl, rfl, ?_, ?_, ?_, -784332 / 100000, 32 / 10, ?_, ?_⟩
    · simp only [center_h2]; rw [abs_le]; constructor <;> norm_num
    · norm_num [radius_h2]
    · norm_num [radius_h2]
    · simp only [center_h2]; push_cast; ring
    · simp only [radius_h2]; push_cast; ring

/-- An accepted hit lies on the sphere: the vector from the center to the hit
point has squared length `r²`. -/
theorem hit_normal_dot (O C : vec3 ℝ) (r : ℝ)
    (ht : 0 < intersectSphere Real.sqrt O dir C r) :
    (O + (dir : vec3 ℝ) * intersectSphere Real.sqrt O dir C r - C).dot
      (O + (dir : vec3 ℝ) * intersectSphere Real.sqrt O dir C r - C) = r * r := by
  have h := intersectSphere_onSphere O dir C r dir_ne (disc_nonneg_of_pos O dir C r ht)
  rw [OnSphere, len_sq] at h
  rw [h, sq]

/-- An accepted hit on a sphere of positive radius: the vector from the center
to the hit point has length `r`. -/
theorem hit_normal_len (O C : vec3 ℝ) (r : ℝ) (hr : 0 < r)
    (ht : 0 < intersectSphere Real.sqrt O dir C r) :
    vec3.len Real.sqrt (O + (dir : vec3 ℝ) * intersectSphere Real.sqrt O dir C r - C) = r := by
  simp only [vec3.len]
  rw [hit_normal_dot O C r ht]
  exact Real.sqrt_mul_self hr.le

/-- The camera plane `z = -30` is strictly outside every sphere of radius at
most 8 whose rest center has `z = 0` and `|x| ≤ 12`, at every angle. -/
theorem outside_rotated (O c : vec3 ℝ) (r t : ℝ) (hO : O.z = -30) (hz : c.z = 0)
    (hx : |c.x| ≤ 12) (hr0 : 0 ≤ r) (hr : r ≤ 8) :
    r < vec3.len Real.sqrt (O - rotateCoordinates Real.cos Real.sin c t 1) := by
  have hs1 := Real.sin_le_one t
  have hs2 := Real.neg_one_le_sin t
  obtain ⟨hx1, hx2⟩ := abs_le.1 hx
  have hprod : c.x * Real.sin t ≤ 12 := by
    nlinarith [mul_nonneg (sub_nonneg.2 hs1) (sub_nonneg.2 hx2),
      mul_nonneg (sub_nonneg.2 hs1) (sub_nonneg.2 hx1),
      mul_nonneg (sub_nonneg.2 hs2) (sub_nonneg.2 hx2),
      mul_nonneg (sub_nonneg.2 hs2) (sub_nonneg.2 hx1)]
  have hprod2 : -12 ≤ c.x * Real.sin t := by
    nlinarith [mul_nonneg (sub_nonneg.2 hs1) (sub_nonneg.2 hx2),
      mul_nonneg (sub_nonneg.2 hs1) (sub_nonneg.2 hx1),
      mul_nonneg (sub_nonneg.2 hs2) (sub_nonneg.2 hx2),
      mul_nonneg (sub_nonneg.2 hs2) (sub_nonneg.2 hx1)]
  simp only [vec3.len]
  rw [Real.lt_sqrt hr0, rotateCoordinates_axis1]
  simp only [vec3.dot, vec3.sub_x, vec3.sub_y, vec3.sub_z, hO, hz]
  nlinarith [mul_self_nonneg (O.x - (0 * Real.sin t + c.x * Real.cos t)),
    mul_self_nonneg (O.y - c.y)]

/-- From an origin strictly outside the sphere, a positive root of the
quadratic makes the result of `intersectSphere` positive. -/
theorem intersectSphere_pos_of_outside (O D C : vec3 ℝ) (r s : ℝ) (hD : D ≠ ⟨0, 0, 0⟩)
    (hr : 0 < r) (hout : r < vec3.len Real.sqrt (O - C)) (hs : 0 < s)
    (hon : OnSphere O D C r s) : 0 < intersectSphere Real.sqrt O D C r := by
  have hc := c_pos_of_outside O C r hr hout
  have ha := dot_self_pos D hD
  have hle := intersectSphere_le_root O D C r s hD hon
  have hton := intersectSphere_root_of_root O D C r s hD hon
  have q := (onSphere_iff O D C r s).1 hon
  have qt := (onSphere_iff O D C r _).1 hton
  generalize intersectSphere Real.sqrt O D C r = t at hle qt ⊢
  by_contra hneg
  have ht : t ≤ 0 := not_lt.1 hneg
  have hne : t - s ≠ 0 := by linarith
  have hprod : D.dot D * t * s * (t - s) = ((O - C).dot (O - C) - r * r) * (t - s) := by
    linear_combination s * qt - t * q
  have hcs : D.dot D * t * s = (O - C).dot (O - C) - r * r := mul_right_cancel₀ hne hprod
  have : D.dot D * t * s ≤ 0 := by
    have := mul_nonneg (mul_nonneg ha.le (neg_nonneg.2 ht)) hs.le
    linarith
  linarith

/-- A ray down the z axis that passes within the radius of the center, from a
point further than the radius in front of it, hits at a positive parameter. -/
theorem hit_pos (O C : vec3 ℝ) (r : ℝ) (hr : 0 ≤ r)
    (hxy : (O.x - C.x) * (O.x - C.x) + (O.y - C.y) * (O.y - C.y) ≤ r * r)
    (hz : r < C.z - O.z) : 0 < intersectSphere Real.sqrt O dir C r := by
  have hd : 2 * (O - C).dot dir * (2 * (O - C).dot dir)
      - 4 * (dir : vec3 ℝ).dot dir * ((O - C).dot (O - C) - r * r)
      = 4 * (r * r - ((O.x - C.x) * (O.x - C.x) + (O.y - C.y) * (O.y - C.y))) := by
    simp only [vec3.dot, vec3.sub_x, vec3.sub_y, vec3.sub_z, dir]
    ring
  have hd0 : 0 ≤ 2 * (O - C).dot dir * (2 * (O - C).dot dir)
      - 4 * (dir : vec3 ℝ).dot dir * ((O - C).dot (O - C) - r * r) := by
    rw [hd]; linarith
  rw [intersectSphere_of_nonneg O dir C r hd0, hd]
  have hsq : Real.sqrt (4 * (r * r - ((O.x - C.x) * (O.x - C.x) + (O.y - C.y) * (O.y - C.y))))
      ≤ 2 * r := by
    rw [Real.sqrt_le_left (by linarith)]
    nlinarith [mul_self_nonneg (O.x - C.x), mul_self_nonneg (O.y - C.y)]
  apply div_pos
  · simp only [vec3.dot, vec3.sub_x, vec3.sub_y, vec3.sub_z, dir]
    linarith
  · simp only [vec3.dot, dir]
    norm_num

/-- In frame 0 the carbon sphere is at its rest position. -/
theorem carbon_zero : carbon Real.cos Real.sin 0 = (center_carbon : vec3 ℝ) := by
  simp only [carbon, rotAxis]
  rw [rotateCoordinates_axis1, vec3.eq_iff]
  simp [theta, center_carbon]

/-- In frame 0 the ray of column 12, row 9 hits the carbon sphere. -/
theorem hit_carbon_frame_zero :
    0 < intersectSphere Real.sqrt (origin 12 9) dir (carbon Real.cos Real.sin 0)
      (radius_carbon : ℝ) := by
  rw [carbon_zero]
  apply hit_pos
  · norm_num [radius_carbon]
  · norm_num [origin, width, height, pixelAspect, center_carbon, radius_carbon]
  · norm_num [origin, center_carbon, radius_carbon]

/-- The carbon sphere is the first sphere of every frame. -/
theorem carbon_mem_spheres (radians : Int) :
    (carbon Real.cos Real.sin radians, (radius_carbon : ℝ))
      ∈ spheres Real.cos Real.sin radians := by
  simp [spheres]

/-- C19: for every frame `0..627`, every grid cell and each of the four
spheres, the ray origin `(x - 20 + 0.5, (y - 10 + 0.5) * 2, -30)` is strictly
outside the sphere of the frame, so that whenever the quadratic has a positive
root the near root that `intersectSphere` returns is positive too. -/
theorem camera_outside (radians x y : Int) :
    0 ≤ radians → radians < loopNumber → 0 ≤ x → x < width → 0 ≤ y → y < height →
    (origin x y : vec3 ℝ) = ⟨(x : ℝ) - 20 + 1 / 2, ((y : ℝ) - 10 + 1 / 2) * 2, -30⟩ ∧
    ∀ s ∈ spheres Real.cos Real.sin radians,
      s.2 < vec3.len Real.sqrt (origin x y - s.1) ∧
      ∀ τ : ℝ, 0 < τ → OnSphere (origin x y) dir s.1 s.2 τ →
        0 < intersectSphere Real.sqrt (origin x y) dir s.1 s.2 := by
  intro _ _ _ _ _ _
  constructor
  · rw [vec3.eq_iff]
    simp only [origin, width, height, pixelAspect]
    refine ⟨?_, ?_, trivial⟩
    · push_cast; norm_num
    · push_cast; norm_num
  · intro s hs
    obtain ⟨c, hc, hz, hx, hr0, hr8, -⟩ := spheres_facts radians s hs
    have hout : s.2 < vec3.len Real.sqrt ((origin x y : vec3 ℝ) - s.1) := by
      rw [hc]
      exact outside_rotated _ c s.2 _ rfl hz hx hr0.le hr8
    exact ⟨hout, fun τ hτ hon =>
      intersectSphere_pos_of_outside _ _ _ _ τ dir_ne hr0 hout hτ hon⟩

/-- C19 at the first cell of the first frame and the carbon sphere. -/
theorem camera_outside_witness :
    (0 : Int) ≤ 0 ∧ (0 : Int) < loopNumber ∧ (0 : Int) < width ∧ (0 : Int) < height ∧
    (radius_carbon : ℝ)
      < vec3.len Real.sqrt (origin 0 0 - carbon Real.cos Real.sin 0) :=
  ⟨by decide, by decide, by decide, by decide,
    ((camera_outside 0 0 0 (by decide) (by decide) (by decide) (by decide) (by decide)
      (by decide)).2 _ (carbon_mem_spheres 0)).1⟩

/-- The dot product of two unit vectors is at most one. -/
theorem dot_le_one_of_unit (n m : vec3 ℝ) (hn : n.dot n = 1) (hm : m.dot m = 1) :
    n.dot m ≤ 1 := by
  simp only [vec3.dot] at hn hm ⊢
  nlinarith [sq_nonneg (n.x - m.x), sq_nonneg (n.y - m.y), sq_nonneg (n.z - m.z)]

/-- Two unit vectors of dot product one have the same y-coordinate. -/
theorem y_eq_of_dot_eq_one (n m : vec3 ℝ) (hn : n.dot n = 1) (hm : m.dot m = 1)
    (h : n.dot m = 1) : n.y = m.y := by
  simp only [vec3.dot] at hn hm h
  have h0 : (n.y - m.y) ^ 2 ≤ 0 := by
    nlinarith [sq_nonneg (n.x - m.x), sq_nonneg (n.z - m.z)]
  have : n.y - m.y = 0 := by
    have := sq_nonneg (n.y - m.y)
    exact pow_eq_zero_iff (two_ne_zero) |>.1 (le_antisymm h0 this)
  linarith

/-- The negated light vector is a unit vector. -/
theorem neg_light_dot :
    (-(light Real.sqrt : vec3 ℝ)).dot (-(light Real.sqrt : vec3 ℝ)) = 1 := by
  have h := normalize_dot_self (⟨-1, 1, 1⟩ : vec3 ℝ) (by rw [light_raw_dot]; norm_num)
  simp only [light]
  simp only [vec3.dot, vec3.neg_x, vec3.neg_y, vec3.neg_z] at h ⊢
  linarith

/-- The y-coordinate of the negated light vector is `-1/√3`. -/
theorem neg_light_y : (-(light Real.sqrt : vec3 ℝ)).y = -(1 / Real.sqrt 3) := by
  simp only [vec3.neg_y, light, vec3.normalize, vec3.len, light_raw_dot]

/-- A quotient of rationals is never `-1/√3`. -/
theorem rat_div_ne_neg_inv_sqrt_three (qo qc qr : ℚ) (hr : (0 : ℝ) < (qr : ℝ)) :
    ((qo : ℝ) - (qc : ℝ)) / (qr : ℝ) ≠ -(1 / Real.sqrt 3) := by
  have irr : Irrational (Real.sqrt 3) := by
    simpa using Nat.prime_three.irrational_sqrt
  have h3 : 0 < Real.sqrt 3 := Real.sqrt_pos.2 (by norm_num)
  intro h
  have hmul : Real.sqrt 3 * ((qo - qc : ℚ) : ℝ) = ((-qr : ℚ) : ℝ) := by
    push_cast
    field_simp at h
    linarith
  by_cases hq : qo - qc = 0
  · rw [hq] at hmul
    push_cast at hmul
    linarith
  · exact (irr.mul_rat hq).ne_rat _ hmul

/-- The y-coordinate of a normalized vector. -/
theorem normalize_y (v : vec3 ℝ) :
    (vec3.normalize Real.sqrt v).y = v.y / vec3.len Real.sqrt v :=
  rfl

/-- The y-coordinate of every ray origin is rational. -/
theorem origin_y_rat (x y : Int) : (origin x y : vec3 ℝ).y = (((origin x y : vec3 ℚ).y : ℚ) : ℝ) := by
  simp only [origin, pixelAspect]
  push_cast
  ring

/-- On an accepted hit of a sphere of the scene the luminance is below one. -/
theorem lum_lt_one (radians x y : Int) (s : vec3 ℝ × ℝ)
    (hs : s ∈ spheres Real.cos Real.sin radians)
    (ht : 0 < intersectSphere Real.sqrt (origin x y) dir s.1 s.2) :
    (vec3.normalize Real.sqrt
        (origin x y + (dir : vec3 ℝ) * intersectSphere Real.sqrt (origin x y) dir s.1 s.2
          - s.1)).dot (-(light Real.sqrt : vec3 ℝ)) < 1 := by
  obtain ⟨c, hc, -, -, hr, -, qc, qr, hqc, hqr⟩ := spheres_facts radians s hs
  have hNN := hit_normal_dot (origin x y) s.1 s.2 ht
  have hlen := hit_normal_len (origin x y) s.1 s.2 hr ht
  have hpos := mul_pos hr hr
  rw [← hNN] at hpos
  have hn := normalize_dot_self _ hpos
  have hle := dot_le_one_of_unit _ _ hn neg_light_dot
  refine lt_of_le_of_ne hle ?_
  intro heq
  have hy := y_eq_of_dot_eq_one _ _ hn neg_light_dot heq
  rw [neg_light_y] at hy
  have hsy : s.1.y = (qc : ℝ) := by
    rw [hc, rotateCoordinates_axis1]
    exact hqc
  have hny : (vec3.normalize Real.sqrt
      (origin x y + (dir : vec3 ℝ) * intersectSphere Real.sqrt (origin x y) dir s.1 s.2
        - s.1)).y
      = ((((origin x y : vec3 ℚ).y : ℚ) : ℝ) - (qc : ℝ)) / (qr : ℝ) := by
    rw [normalize_y, hlen, ← hqr, ← origin_y_rat, ← hsy]
    simp only [vec3.sub_y, vec3.add_y, vec3.mul_y, dir]
    ring
  rw [hny] at hy
  exact rat_div_ne_neg_inv_sqrt_three _ _ _ (by rw [← hqr]; exact hr) hy

/-- A read of `colors` at an index in `0..7` succeeds and yields a ramp glyph. -/
theorem colorAt_some (i : Int) (h0 : 0 ≤ i) (h7 : i ≤ 7) :
    ∃ c, colorAt i = some c ∧ c ∈ colors := by
  have hlt : i.toNat < colors.length := by
    simp only [colors, List.length_cons, List.length_nil]
    omega
  refine ⟨colors[i.toNat], ?_, List.getElem_mem _⟩
  simp only [colorAt, if_pos h0]
  exact List.getElem?_eq_getElem hlt

/-- The four spheres of a frame are members of `spheres`. -/
theorem mem_spheres (radians : Int) :
    (carbon Real.cos Real.sin radians, (radius_carbon : ℝ))
        ∈ spheres Real.cos Real.sin radians ∧
    (oxygen Real.cos Real.sin radians, (radius_oxygen : ℝ))
        ∈ spheres Real.cos Real.sin radians ∧
    (hyd1 Real.cos Real.sin radians, (radius_h1 : ℝ))
        ∈ spheres Real.cos Real.sin radians ∧
    (hyd2 Real.cos Real.sin radians, (radius_h2 : ℝ))
        ∈ spheres Real.cos Real.sin radians := by
  simp [spheres]

/-- On an accepted hit of a sphere of the scene the hit branch prints a ramp glyph. -/
theorem shade_some (radians x y : Int) (s : vec3 ℝ × ℝ)
    (hs : s ∈ spheres Real.cos Real.sin radians)
    (ht : 0 < intersectSphere Real.sqrt (origin x y) dir s.1 s.2) :
    ∃ c, shade Real.sqrt (light Real.sqrt) (origin x y) s.1
        (intersectSphere Real.sqrt (origin x y) dir s.1 s.2) = some c ∧ c ∈ colors := by
  rw [shade_eq]
  exact colorAt_some _ (glyphIndex_nonneg _)
    (glyphIndex_le_seven _ (lum_lt_one radians x y s hs ht))

/-- Every pixel of every frame prints a character: the blank or a ramp glyph. -/
theorem cell_some (radians x y : Int) :
    ∃ c, cell Real.sqrt Real.cos Real.sin radians x y = some c ∧ (c = ' ' ∨ c ∈ colors) := by
  obtain ⟨m1, m2, m3, m4⟩ := mem_spheres radians
  simp only [cell, pixel, gt_iff_lt]
  split
  · next h =>
    obtain ⟨c, hc, hm⟩ := shade_some radians x y _ m1 h
    exact ⟨c, hc, Or.inr hm⟩
  split
  · next h =>
    obtain ⟨c, hc, hm⟩ := shade_some radians x y _ m2 h
    exact ⟨c, hc, Or.inr hm⟩
  split
  · next h =>
    obtain ⟨c, hc, hm⟩ := shade_some radians x y _ m3 h
    exact ⟨c, hc, Or.inr hm⟩
  split
  · next h =>
    obtain ⟨c, hc, hm⟩ := shade_some radians x y _ m4 h
    exact ⟨c, hc, Or.inr hm⟩
  exact ⟨' ', rfl, Or.inl rfl⟩

/-- C20: for every frame `0..627` and every grid cell, on each sphere hit at
`t > 0` the luminance `normal · (-light)` is at most 1 and the index used on
the ramp (0 when the luminance is negative, otherwise the truncation of
8 times the luminance) lies in `0..7`, so that the read of `colors` made by
the pixel succeeds. -/
theorem glyph_index_in_bounds (radians x y : Int) :
    0 ≤ radians → radians < loopNumber → 0 ≤ x → x < width → 0 ≤ y → y < height →
    (∀ s ∈ spheres Real.cos Real.sin radians,
      0 < intersectSphere Real.sqrt (origin x y) dir s.1 s.2 →
      (vec3.normalize Real.sqrt
          (origin x y + (dir : vec3 ℝ) * intersectSphere Real.sqrt (origin x y) dir s.1 s.2
            - s.1)).dot (-(light Real.sqrt : vec3 ℝ)) ≤ 1 ∧
      0 ≤ glyphIndex ((vec3.normalize Real.sqrt
          (origin x y + (dir : vec3 ℝ) * intersectSphere Real.sqrt (origin x y) dir s.1 s.2
            - s.1)).dot (-(light Real.sqrt : vec3 ℝ))) ∧
      glyphIndex ((vec3.normalize Real.sqrt
          (origin x y + (dir : vec3 ℝ) * intersectSphere Real.sqrt (origin x y) dir s.1 s.2
            - s.1)).dot (-(light Real.sqrt : vec3 ℝ))) ≤ 7 ∧
      shade Real.sqrt (light Real.sqrt) (origin x y) s.1
          (intersectSphere Real.sqrt (origin x y) dir s.1 s.2)
        = colorAt (glyphIndex ((vec3.normalize Real.sqrt
            (origin x y + (dir : vec3 ℝ) * intersectSphere Real.sqrt (origin x y) dir s.1 s.2
              - s.1)).dot (-(light Real.sqrt : vec3 ℝ))))) ∧
    ∃ c, cell Real.sqrt Real.cos Real.sin radians x y = some c := by
  intro _ _ _ _ _ _
  constructor
  · intro s hs ht
    have hlt := lum_lt_one radians x y s hs ht
    exact ⟨hlt.le, glyphIndex_nonneg _, glyphIndex_le_seven _ hlt, shade_eq _ _ _ _⟩
  · obtain ⟨c, hc, -⟩ := cell_some radians x y
    exact ⟨c, hc⟩

/-- C20 at the hit of the carbon sphere by column 12, row 9 of frame 0. -/
theorem glyph_index_in_bounds_witness :
    0 < intersectSphere Real.sqrt (origin 12 9) dir (carbon Real.cos Real.sin 0)
      (radius_carbon : ℝ) ∧
    glyphIndex ((vec3.normalize Real.sqrt
      (origin 12 9 + (dir : vec3 ℝ) * intersectSphere Real.sqrt (origin 12 9) dir
        (carbon Real.cos Real.sin 0) radius_carbon
        - carbon Real.cos Real.sin 0)).dot (-(light Real.sqrt : vec3 ℝ))) ≤ 7 :=
  ⟨hit_carbon_frame_zero,
    ((glyph_index_in_bounds 0 12 9 (by decide) (by decide) (by decide) (by decide) (by decide)
      (by decide)).1 _ (carbon_mem_spheres 0) hit_carbon_frame_zero).2.2.1⟩

end Scene

/-! ## The text of a frame -/

section Frame

/-- A monadic map whose function succeeds everywhere is a plain map. -/
theorem mapM_some {β γ : Type} (f : β → Option γ) (g : β → γ) (l : List β)
    (h : ∀ a ∈ l, f a = some (g a)) : l.mapM f = some (l.map g) := by
  induction l with
  | nil => rfl
  | cons a l ih =>
    rw [List.mapM_cons, h a (List.mem_cons_self _ _),
      ih (fun b hb => h b (List.mem_cons_of_mem _ hb))]
    rfl

/-- C12: for every frame `0..627` the text of the frame is 20 rows, each of 40
glyphs followed by a newline; the glyph of column `x` in row `y` is the one
character that the pixel `(x, y)` prints, and it is the blank or one of the 8
ramp glyphs. -/
theorem frame_text (radians : Int) :
    0 ≤ radians → radians < loopNumber →
    ∃ rows : List (List Char),
      frame Real.sqrt Real.cos Real.sin radians
        = some ((rows.map (fun glyphs => glyphs ++ ['\n'])).flatten) ∧
      rows.length = 20 ∧
      (∀ glyphs ∈ rows, glyphs.length = 40 ∧ ∀ c ∈ glyphs, c = ' ' ∨ c ∈ colors) ∧
      (∀ x y : Nat, x < 40 → y < 20 →
        rows[y]?.bind (fun glyphs => glyphs[x]?)
          = cell Real.sqrt Real.cos Real.sin radians x y) := by
  intro _ _
  choose g hg hg2 using cell_some radians
  have hw : width.toNat = 40 := rfl
  have hh : height.toNat = 20 := rfl
  have hrow : ∀ y : Int, row Real.sqrt Real.cos Real.sin radians y
      = some ((List.range 40).map (fun x : Nat => g (Int.ofNat x) y) ++ ['\n']) := by
    intro y
    simp only [row, hw]
    rw [mapM_some (fun x : Nat => cell Real.sqrt Real.cos Real.sin radians (Int.ofNat x) y)
      (fun x : Nat => g (Int.ofNat x) y) _ (fun a _ => hg _ y)]
    rfl
  refine ⟨(List.range 20).map
    (fun y : Nat => (List.range 40).map (fun x : Nat => g (Int.ofNat x) (Int.ofNat y))),
    ?_, by simp, ?_, ?_⟩
  · simp only [frame, hh]
    rw [mapM_some (fun y : Nat => row Real.sqrt Real.cos Real.sin radians (Int.ofNat y))
      (fun y : Nat =>
        (List.range 40).map (fun x : Nat => g (Int.ofNat x) (Int.ofNat y)) ++ ['\n']) _
      (fun a _ => hrow _)]
    simp only [Option.map_some', List.map_map]
    rfl
  · intro glyphs hgl
    simp only [List.mem_map, List.mem_range] at hgl
    obtain ⟨y, -, rfl⟩ := hgl
    refine ⟨by simp, ?_⟩
    intro c hc
    simp only [List.mem_map, List.mem_range] at hc
    obtain ⟨x, -, rfl⟩ := hc
    exact hg2 _ _
  · intro x y hx hy
    rw [hg]
    simp [List.getElem?_map, List.getElem?_range, hx, hy]

/-- C12 at the first frame. -/
theorem frame_text_witness :
    (0 : Int) ≤ 0 ∧ (0 : Int) < loopNumber ∧
    ∃ rows : List (List Char),
      frame Real.sqrt Real.cos Real.sin 0
        = some ((rows.map (fun glyphs => glyphs ++ ['\n'])).flatten) ∧
      rows.length = 20 :=
  ⟨by decide, by decide,
    (frame_text 0 (by decide) (by decide)).imp (fun _ h => ⟨h.1, h.2.1⟩)⟩

end Frame

/-! ## Evaluations in binary32 -/

section Binary32Evaluations

/-- C2 as stated fails in binary32: for the ray from `(100, 0, -10⁶)` with
direction `(0,0,1)` and the sphere of radius `7.7f` about the origin, no point
of the line is on the sphere and the exact discriminant is negative, yet the
rounded discriminant is `0` and `intersectSphere` returns `10⁶`, not `-1`. -/
theorem intersectSphere_float_no_sentinel :
    (100 : Float32).toRat = 100 ∧ (-1000000 : Float32).toRat = -1000000 ∧
    (77 / 10 : Float32).toRat = 8074035 / 1048576 ∧
    (intersectSphere Float32.sqrt ⟨100, 0, -1000000⟩ ⟨0, 0, 1⟩ ⟨0, 0, 0⟩ (77 / 10)).toRat
      = 1000000 ∧
    (∀ s : ℝ, ¬ OnSphere ⟨100, 0, -1000000⟩ ⟨0, 0, 1⟩ ⟨0, 0, 0⟩ (8074035 / 1048576) s) ∧
    (2 * ((⟨100, 0, -1000000⟩ : vec3 ℝ) - ⟨0, 0, 0⟩).dot ⟨0, 0, 1⟩) ^ 2
      - 4 * (⟨0, 0, 1⟩ : vec3 ℝ).dot ⟨0, 0, 1⟩
        * (((⟨100, 0, -1000000⟩ : vec3 ℝ) - ⟨0, 0, 0⟩).dot
            ((⟨100, 0, -1000000⟩ : vec3 ℝ) - ⟨0, 0, 0⟩) - (8074035 / 1048576 : ℝ) ^ 2) < 0 := by
  refine ⟨by decide!, by decide!, by decide!, by decide!, ?_, ?_⟩
  · intro s hs
    rw [onSphere_iff] at hs
    simp only [vec3.dot, vec3.sub_x, vec3.sub_y, vec3.sub_z] at hs
    nlinarith [mul_self_nonneg (s - 1000000)]
  · simp only [vec3.dot, vec3.sub_x, vec3.sub_y, vec3.sub_z]
    norm_num

/-- C4 as stated fails in binary32: from `(0,0,-30)` with direction `(0,0,1)`
towards the sphere of radius `0.001f` about the origin, the distance to the
center is `30` and `intersectSphere` returns `30`, which is neither the exact
`30 - r` nor the rounded difference `29.9990005`. -/
theorem intersectSphere_float_towards_center :
    (1 / 1000 : Float32).toRat = 8589935 / 8589934592 ∧
    (vec3.len Float32.sqrt ((⟨0, 0, -30⟩ : vec3 Float32) - ⟨0, 0, 0⟩)).toRat = 30 ∧
    (intersectSphere Float32.sqrt ⟨0, 0, -30⟩ ⟨0, 0, 1⟩ ⟨0, 0, 0⟩ (1 / 1000)).toRat = 30 ∧
    (vec3.len Float32.sqrt ((⟨0, 0, -30⟩ : vec3 Float32) - ⟨0, 0, 0⟩) - 1 / 1000).toRat
      = 15728116 / 524288 ∧
    (intersectSphere Float32.sqrt ⟨0, 0, -30⟩ ⟨0, 0, 1⟩ ⟨0, 0, 0⟩ (1 / 1000)).toRat
      ≠ 30 - (1 / 1000 : Float32).toRat := by
  refine ⟨by decide!, by decide!, by decide!, by decide!, by decide!⟩

/-- C6 as stated fails in binary32: with direction `(0,0,1)`, origin
`(-15.5, 1, -30)`, center `(-7.79999971, 1, 0)` and radius `7.7f` the
x-coordinates satisfy `|O.x| > R + |C.x|`, yet the rounded discriminant is `0`
and `intersectSphere` returns `30`, a hit, not `-1`. -/
theorem intersectSphere_float_hit_beyond_x :
    (-31 / 2 : Float32).toRat = -31 / 2 ∧
    round32 (-16357785 / 2097152) = -16357785 / 2097152 ∧
    (77 / 10 : Float32).toRat = 8074035 / 1048576 ∧
    (8074035 / 1048576 + 16357785 / 2097152 : ℚ) < 31 / 2 ∧
    (intersectSphere Float32.sqrt ⟨-31 / 2, 1, -30⟩ ⟨0, 0, 1⟩
      ⟨⟨-16357785 / 2097152⟩, 1, 0⟩ (77 / 10)).toRat = 30 := by
  refine ⟨by decide!, by decide!, by decide!, by decide!, by decide!⟩

/-- C15 as stated fails in binary32: the light vector, `(-1, 1, 1)` after
`normalize`, has the components `∓0.57735026` and the length `0.99999994`,
not `1`. -/
theorem normalize_float_light_len :
    (vec3.normalize Float32.sqrt (⟨-1, 1, 1⟩ : vec3 Float32)).x.toRat = -4843165 / 8388608 ∧
    (vec3.normalize Float32.sqrt (⟨-1, 1, 1⟩ : vec3 Float32)).y.toRat = 4843165 / 8388608 ∧
    (vec3.normalize Float32.sqrt (⟨-1, 1, 1⟩ : vec3 Float32)).z.toRat = 4843165 / 8388608 ∧
    (vec3.len Float32.sqrt (vec3.normalize Float32.sqrt (⟨-1, 1, 1⟩ : vec3 Float32))).toRat
      = 16777215 / 16777216 ∧
    (vec3.len Float32.sqrt (vec3.normalize Float32.sqrt (⟨-1, 1, 1⟩ : vec3 Float32))).toRat
      ≠ 1 := by
  refine ⟨by decide!, by decide!, by decide!, by decide!, by decide!⟩

/-- C8 as stated fails in binary32.  With every pair of binary32 numbers
within two units in the last place of `cos 0.5 = 0.87758256` and
`sin 0.5 = 0.47942554` in the place of the library results, the point
`(6, 3, 2)` at distance `7` from the origin is rotated about the y axis to a
point whose distance from the rotated origin is not `7`; with the nearest
values, `(1, 2, 3)` goes from the length `3.7416575` to `3.74165773`. -/
theorem rotateCoordinates_float_changes_dist :
    (vec3.len Float32.sqrt ((⟨6, 3, 2⟩ : vec3 Float32) - ⟨0, 0, 0⟩)).toRat = 7 ∧
    (∀ c ∈ [(7361695 / 8388608 : ℚ), 14723391 / 16777216, 230053 / 262144,
        14723393 / 16777216, 7361697 / 8388608],
      ∀ s ∈ [(8043425 / 16777216 : ℚ), 16086851 / 33554432, 4021713 / 8388608,
        16086853 / 33554432, 8043427 / 16777216],
      (vec3.len Float32.sqrt
        (rotateCoordinates (fun _ => ⟨c⟩) (fun _ => ⟨s⟩) (⟨6, 3, 2⟩ : vec3 Float32) (1 / 2) 1
          - rotateCoordinates (fun _ => ⟨c⟩) (fun _ => ⟨s⟩) ⟨0, 0, 0⟩ (1 / 2) 1)).toRat
        ≠ 7) ∧
    (vec3.len Float32.sqrt ((⟨1, 2, 3⟩ : vec3 Float32) - ⟨0, 0, 0⟩)).toRat
      = 15693649 / 4194304 ∧
    (vec3.len Float32.sqrt
      (rotateCoordinates (fun _ => ⟨230053 / 262144⟩) (fun _ => ⟨4021713 / 8388608⟩)
          (⟨1, 2, 3⟩ : vec3 Float32) (1 / 2) 1
        - rotateCoordinates (fun _ => ⟨230053 / 262144⟩) (fun _ => ⟨4021713 / 8388608⟩)
          ⟨0, 0, 0⟩ (1 / 2) 1)).toRat = 7846825 / 2097152 := by
  refine ⟨by decide!, by decide!, by decide!, by decide!⟩

end Binary32Evaluations

/-! ## The priority order against the nearest hit -/

section Priority

/-- A ray down the z axis that passes the center at the squared distance
`R² - w²`, `w ≥ 0`, meets the sphere at the depth of the center minus `w`. -/
theorem intersectSphere_off_axis (O C : vec3 ℝ) (R w : ℝ) (hw : 0 ≤ w)
    (h : R * R - ((O.x - C.x) * (O.x - C.x) + (O.y - C.y) * (O.y - C.y)) = w * w) :
    intersectSphere Real.sqrt O dir C R = C.z - O.z - w := by
  have hd : 2 * (O - C).dot dir * (2 * (O - C).dot dir)
      - 4 * (dir : vec3 ℝ).dot dir * ((O - C).dot (O - C) - R * R) = (2 * w) * (2 * w) := by
    simp only [vec3.dot, vec3.sub_x, vec3.sub_y, vec3.sub_z, dir]
    linear_combination 4 * h
  rw [intersectSphere_of_nonneg O dir C R (by rw [hd]; nlinarith), hd,
    Real.sqrt_mul_self (by linarith)]
  simp only [vec3.dot, vec3.sub_x, vec3.sub_y, vec3.sub_z, dir]
  ring

/-- The luminance of a hit whose vector from the center has length `r`. -/
theorem lum_eq (N : vec3 ℝ) (r : ℝ) (hr : 0 < r) (hN : N.dot N = r * r) :
    (vec3.normalize Real.sqrt N).dot (-(light Real.sqrt : vec3 ℝ))
      = (N.x - N.y - N.z) / (r * Real.sqrt 3) := by
  have h3 : 0 < Real.sqrt 3 := Real.sqrt_pos.2 (by norm_num)
  have hlen : Real.sqrt (N.dot N) = r := by
    rw [hN]
    exact Real.sqrt_mul_self hr.le
  simp only [vec3.dot, vec3.normalize, vec3.len, light, vec3.neg_x, vec3.neg_y, vec3.neg_z]
  simp only [vec3.dot] at hlen
  have e3 : (-1 : ℝ) * -1 + 1 * 1 + 1 * 1 = 3 := by norm_num
  rw [hlen, e3]
  field_simp
  ring

/-- C17: with the carbon sphere centered at `(6.16, 0, 10)` behind the oxygen
sphere centered at `(0, 0, 0)`, the ray from `(0, 0, -30)` with direction
`(0,0,1)` hits both, oxygen at the smaller positive parameter; the pixel is
shaded with carbon and prints the glyph of carbon, while the glyph of the
nearer oxygen hit is a different one.  The two parameters are in the same
order when the two calls of `intersectSphere` are evaluated in binary32. -/
theorem pixel_not_nearest :
    (0 : ℝ) < intersectSphere Real.sqrt ⟨0, 0, -30⟩ dir ⟨0, 0, 0⟩ radius_oxygen ∧
    intersectSphere Real.sqrt ⟨0, 0, -30⟩ dir ⟨0, 0, 0⟩ radius_oxygen
      < intersectSphere Real.sqrt ⟨0, 0, -30⟩ dir ⟨616 / 100, 0, 10⟩ radius_carbon ∧
    pixel Real.sqrt (light Real.sqrt) ⟨616 / 100, 0, 10⟩ ⟨0, 0, 0⟩ center_h1 center_h2
        ⟨0, 0, -30⟩
      = shade Real.sqrt (light Real.sqrt) ⟨0, 0, -30⟩ ⟨616 / 100, 0, 10⟩
          (intersectSphere Real.sqrt ⟨0, 0, -30⟩ dir ⟨616 / 100, 0, 10⟩ radius_carbon) ∧
    pixel Real.sqrt (light Real.sqrt) ⟨616 / 100, 0, 10⟩ ⟨0, 0, 0⟩ center_h1 center_h2
        ⟨0, 0, -30⟩ = some '.' ∧
    shade Real.sqrt (light Real.sqrt) ⟨0, 0, -30⟩ ⟨0, 0, 0⟩
        (intersectSphere Real.sqrt ⟨0, 0, -30⟩ dir ⟨0, 0, 0⟩ radius_oxygen) = some '+' ∧
    (0 : Float32) < intersectSphere Float32.sqrt ⟨0, 0, -30⟩ ⟨0, 0, 1⟩ ⟨0, 0, 0⟩ (66 / 10) ∧
    intersectSphere Float32.sqrt ⟨0, 0, -30⟩ ⟨0, 0, 1⟩ ⟨0, 0, 0⟩ (66 / 10)
      < intersectSphere Float32.sqrt ⟨0, 0, -30⟩ ⟨0, 0, 1⟩ ⟨616 / 100, 0, 10⟩ (77 / 10) := by
  have hc : intersectSphere Real.sqrt ⟨0, 0, -30⟩ dir ⟨616 / 100, 0, 10⟩ radius_carbon
      = (3538 / 100 : ℝ) := by
    rw [intersectSphere_off_axis ⟨0, 0, -30⟩ ⟨616 / 100, 0, 10⟩ radius_carbon (462 / 100)
      (by norm_num) (by norm_num [radius_carbon])]
    norm_num
  have ho : intersectSphere Real.sqrt ⟨0, 0, -30⟩ dir ⟨0, 0, 0⟩ radius_oxygen
      = (234 / 10 : ℝ) := by
    rw [intersectSphere_axis ⟨0, 0, -30⟩ ⟨0, 0, 0⟩ radius_oxygen rfl rfl
      (by norm_num [radius_oxygen])]
    norm_num [radius_oxygen]
  have hcpos : (0 : ℝ)
      < intersectSphere Real.sqrt ⟨0, 0, -30⟩ dir ⟨616 / 100, 0, 10⟩ radius_carbon := by
    rw [hc]; norm_num
  have hopos : (0 : ℝ) < intersectSphere Real.sqrt ⟨0, 0, -30⟩ dir ⟨0, 0, 0⟩ radius_oxygen := by
    rw [ho]; norm_num
  have h3 : 0 < Real.sqrt 3 := Real.sqrt_pos.2 (by norm_num)
  have h3sq : Real.sqrt 3 * Real.sqrt 3 = 3 := Real.mul_self_sqrt (by norm_num)
  have hpix : pixel Real.sqrt (light Real.sqrt) ⟨616 / 100, 0, 10⟩ ⟨0, 0, 0⟩ center_h1
      center_h2 ⟨0, 0, -30⟩
      = shade Real.sqrt (light Real.sqrt) ⟨0, 0, -30⟩ ⟨616 / 100, 0, 10⟩
          (intersectSphere Real.sqrt ⟨0, 0, -30⟩ dir ⟨616 / 100, 0, 10⟩ radius_carbon) := by
    simp only [pixel, gt_iff_lt, if_pos hcpos]
  have hshc : shade Real.sqrt (light Real.sqrt) ⟨0, 0, -30⟩ ⟨616 / 100, 0, 10⟩
      (intersectSphere Real.sqrt ⟨0, 0, -30⟩ dir ⟨616 / 100, 0, 10⟩ radius_carbon)
      = some '.' := by
    rw [shade_eq, lum_eq _ radius_carbon (by norm_num [radius_carbon])
      (hit_normal_dot _ _ _ hcpos), hc, glyphIndex_of_neg]
    · rfl
    · apply div_neg_of_neg_of_pos
      · simp only [vec3.sub_x, vec3.sub_y, vec3.sub_z, vec3.add_x, vec3.add_y, vec3.add_z,
          vec3.mul_x, vec3.mul_y, vec3.mul_z, dir]
        norm_num
      · exact mul_pos (by norm_num [radius_carbon]) h3
  have hsho : shade Real.sqrt (light Real.sqrt) ⟨0, 0, -30⟩ ⟨0, 0, 0⟩
      (intersectSphere Real.sqrt ⟨0, 0, -30⟩ dir ⟨0, 0, 0⟩ radius_oxygen) = some '+' := by
    have hlum : ((⟨0, 0, -30⟩ : vec3 ℝ) + (dir : vec3 ℝ) * (234 / 10 : ℝ) - (⟨0, 0, 0⟩ : vec3 ℝ)).x
        - ((⟨0, 0, -30⟩ : vec3 ℝ) + (dir : vec3 ℝ) * (234 / 10 : ℝ) - (⟨0, 0, 0⟩ : vec3 ℝ)).y
        - ((⟨0, 0, -30⟩ : vec3 ℝ) + (dir : vec3 ℝ) * (234 / 10 : ℝ) - (⟨0, 0, 0⟩ : vec3 ℝ)).z
        = radius_oxygen := by
      simp only [vec3.sub_x, vec3.sub_y, vec3.sub_z, vec3.add_x, vec3.add_y, vec3.add_z,
        vec3.mul_x, vec3.mul_y, vec3.mul_z, dir, radius_oxygen]
      norm_num
    have hr : (0 : ℝ) < radius_oxygen := by norm_num [radius_oxygen]
    have hq : (radius_oxygen : ℝ) / (radius_oxygen * Real.sqrt 3) = 1 / Real.sqrt 3 := by
      field_simp
    have hlo : (4 : ℝ) ≤ 8 * (1 / Real.sqrt 3) := by
      rw [mul_one_div, le_div_iff₀ h3]
      nlinarith
    have hhi : 8 * (1 / Real.sqrt 3) < (4 : ℝ) + 1 := by
      rw [mul_one_div, div_lt_iff₀ h3]
      nlinarith
    have hfl : Int.floor (8 * (1 / Real.sqrt 3)) = 4 := by
      rw [Int.floor_eq_iff]
      exact ⟨by exact_mod_cast hlo, by exact_mod_cast hhi⟩
    have hnn : (0 : ℝ) ≤ 1 / Real.sqrt 3 := by positivity
    rw [shade_eq, lum_eq _ radius_oxygen hr (hit_normal_dot _ _ _ hopos), ho, hlum, hq,
      glyphIndex_of_nonneg _ hnn, hfl]
    rfl
  refine ⟨hopos, by rw [ho, hc]; norm_num, hpix, by rw [hpix, hshc], hsho, by decide!,
    by decide!⟩

end Priority

end TerminalMolecule
